import Mathlib

/-!
Verification development for the preflight exception engine of swingft_cli
(`src/swingft_cli/core/config/loader.py` and
`src/swingft_cli/core/config/conflicts.py`).

The embedding covers:
* `fnmatch.fnmatchcase` (case-sensitive glob matching, as used by the
  conflict detector and the candidate discoverer);
* `_update_ast_node_exceptions` with its inner `_parse_spec` and `_walk`
  (rule-spec parsing, tree matching/updating, counters, write-back guard);
* the include-conflict computation and the ask/force/skip policy resolution
  of `check_exception_conflicts` (conflicts.py);
* the candidate computation of `_check_exclude_sensitive_identifiers`.

Machine integers do not occur; the `isException` values are small ints and
are modelled as `Option Int` (absent key = `none`).
-/

set_option maxHeartbeats 1000000

namespace Swingft

/-! ## Executable models of the Python string primitives.

`str.strip`, `str.lower`, `str.split` are re-implemented over `List Char`
so that every definition evaluates inside the kernel (the corresponding
`String` library functions are compiled by well-founded recursion and do
not reduce). ASCII suffices for identifier and kind strings. -/

def isPySpace (ch : Char) : Bool :=
  ch == ' ' || ch == '\t' || ch == '\n' || ch == '\r' || ch == '\x0b' || ch == '\x0c'

def asciiLowerChar (ch : Char) : Char :=
  if 'A' ≤ ch && ch ≤ 'Z' then Char.ofNat (ch.toNat + 32) else ch

/-- Python `str.strip()`. -/
def pyStrip (s : String) : String :=
  ⟨(((s.data.dropWhile isPySpace).reverse.dropWhile isPySpace).reverse)⟩

/-- Python `str.lower()` (ASCII). -/
def pyLower (s : String) : String :=
  ⟨s.data.map asciiLowerChar⟩

/-- Python `s.split(sep, 1)` when `sep` occurs: the part before the first
separator and the remainder. `none` when `sep` does not occur. -/
def splitFirstChar (sep : Char) : List Char → Option (List Char × List Char)
  | [] => none
  | ch :: rest =>
    if ch == sep then some ([], rest)
    else
      match splitFirstChar sep rest with
      | some (a, b) => some (ch :: a, b)
      | none => none

/-- Python `s.split(sep)` for a single-character separator. -/
def splitAllChar (sep : Char) : List Char → List (List Char)
  | [] => [[]]
  | ch :: rest =>
    let r := splitAllChar sep rest
    if ch == sep then [] :: r
    else
      match r with
      | h :: t => (ch :: h) :: t
      | [] => [[ch]]

/-- Python `c in s` for a single character. -/
def pyContainsChar (s : String) (ch : Char) : Bool :=
  s.data.contains ch

/-! ## Glob matching: model of Python `fnmatch.fnmatchcase`.

`fnmatchcase(name, pat)` matches the whole of `name` against `pat`, where
`*` matches any sequence, `?` any single character, and `[...]` a character
class (leading `!` negates; a `]` directly after `[` or `[!` is a member;
`a-b` denotes a range; an unterminated `[` is a literal `[`). -/

def splitAtClose : List Char → Option (List Char × List Char)
  | [] => none
  | ']' :: rest => some ([], rest)
  | ch :: rest =>
    match splitAtClose rest with
    | some (a, b) => some (ch :: a, b)
    | none => none

def extractClass (ps : List Char) : Option (Bool × List Char × List Char) :=
  let neg : Bool := match ps with | '!' :: _ => true | _ => false
  let ps1 : List Char := match ps with | '!' :: t => t | _ => ps
  match ps1 with
  | ']' :: t =>
    match splitAtClose t with
    | some (a, b) => some (neg, ']' :: a, b)
    | none => none
  | other =>
    match splitAtClose other with
    | some (a, b) => some (neg, a, b)
    | none => none

def classMatch : List Char → Char → Bool
  | [], _ => false
  | a :: '-' :: b :: rest, ch => (a ≤ ch && ch ≤ b) || classMatch rest ch
  | a :: rest, ch => (a == ch) || classMatch rest ch

def globMatchAux : Nat → List Char → List Char → Bool
  | 0, _, _ => false
  | _ + 1, [], s => s.isEmpty
  | fuel + 1, '*' :: ps, s =>
    globMatchAux fuel ps s ||
      (match s with
       | [] => false
       | _ :: s' => globMatchAux fuel ('*' :: ps) s')
  | fuel + 1, '?' :: ps, s =>
    (match s with
     | [] => false
     | _ :: s' => globMatchAux fuel ps s')
  | fuel + 1, '[' :: ps, s =>
    (match extractClass ps with
     | some (neg, items, rest) =>
       (match s with
        | [] => false
        | ch :: s' =>
          (if neg then !(classMatch items ch) else classMatch items ch)
            && globMatchAux fuel rest s')
     | none =>
       (match s with
        | ch :: s' => (ch == '[') && globMatchAux fuel ps s'
        | [] => false))
  | fuel + 1, p :: ps, s =>
    (match s with
     | ch :: s' => (p == ch) && globMatchAux fuel ps s'
     | [] => false)

def globMatch (pat s : List Char) : Bool :=
  globMatchAux (pat.length + s.length + 1) pat s

/-- Model of `fnmatch.fnmatchcase(nameStr, pat)`. -/
def fnmatchcase (nameStr pat : String) : Bool :=
  globMatch pat.toList nameStr.toList

/-! ## Rule spec parsing: `_update_ast_node_exceptions._parse_spec`. -/

structure Target where
  kindHint : Option String
  parentPath : List String
  leaf : String
deriving Repr, DecidableEq

/-- Model of `_parse_spec` (loader.py): optional `kind:` before the first
colon, the remainder split on `.` keeping segments whose strip is
non-empty; the final segment is the leaf, earlier ones the parent path. -/
def parseSpec (spec : String) : Target :=
  let s := pyStrip spec
  let kp : Option String × String :=
    match splitFirstChar ':' s.data with
    | none => (none, s)
    | some (k, rest) =>
      let k' := pyLower (pyStrip ⟨k⟩)
      ((if k' = "" then none else some k'), pyStrip ⟨rest⟩)
  let parts : List String :=
    ((splitAllChar '.' kp.2.data).map (fun l => (⟨l⟩ : String))).filter
      (fun p => pyStrip p ≠ "")
  match parts.reverse with
  | [] => ⟨kp.1, [], ""⟩
  | lf :: revParents => ⟨kp.1, revParents.reverse, lf⟩

/-- `parsed_targets`: non-empty (after strip) spec strings, parsed. -/
def parsedTargets (ids : List String) : List Target :=
  (ids.filter (fun x => pyStrip x ≠ "")).map parseSpec

/-- Normalization of `allowed_kinds` (strip/lower, drop blanks). -/
def normAllowedKinds : Option (List String) → Option (List String)
  | none => none
  | some l => some ((l.filter (fun k => pyStrip k ≠ "")).map (fun k => pyLower (pyStrip k)))

/-! ## The declaration tree.

`ast_node.json` nodes, restricted to the fields the engine reads or
writes: `A_name`, `B_kind`, `isException` (absent / int), `_no_inherit`,
and the container keys `G_members`, `children`, `members`, `extension`
(modelled as `extMembers`, the word itself being a Lean-hostile name) and
`node` (the single-node wrapper, `wrapNode`). -/

inductive Ast where
  | mk (aName bKind : String) (isExc : Option Int) (noInherit : Bool)
       (gMembers children members extMembers : List Ast) (wrapNode : Option Ast) : Ast

def Ast.rawName : Ast → String
  | .mk n _ _ _ _ _ _ _ _ => n

def Ast.rawKind : Ast → String
  | .mk _ k _ _ _ _ _ _ _ => k

def Ast.isExcOf : Ast → Option Int
  | .mk _ _ ex _ _ _ _ _ _ => ex

def Ast.noInheritOf : Ast → Bool
  | .mk _ _ _ ni _ _ _ _ _ => ni

def Ast.gOf : Ast → List Ast
  | .mk _ _ _ _ g _ _ _ _ => g

def Ast.chOf : Ast → List Ast
  | .mk _ _ _ _ _ c _ _ _ => c

def Ast.mOf : Ast → List Ast
  | .mk _ _ _ _ _ _ m _ _ => m

def Ast.eOf : Ast → List Ast
  | .mk _ _ _ _ _ _ _ e _ => e

def Ast.wrapOf : Ast → Option Ast
  | .mk _ _ _ _ _ _ _ _ w => w

/-- `_ast_unwrap`: the canonical node is the `node` field when present. -/
def Ast.curOf (a : Ast) : Ast := (a.wrapOf).getD a

/-! ## Matching a parsed target at a node (`_walk`'s per-target checks). -/

/-- Parent-path check: non-empty `parent_path` must equal the last N
entries of the ancestor-name stack. -/
def parentOk (pp stack : List String) : Bool :=
  if pp.isEmpty then true
  else if pp.length > stack.length then false
  else stack.drop (stack.length - pp.length) == pp

/-- `allowed_kinds` check; `None` and the empty set are both no-ops
(Python truthiness of the empty set). -/
def kindAllowed : Option (List String) → String → Bool
  | none, _ => true
  | some l, kd => l.isEmpty || l.contains kd

def hintOk : Option String → String → Bool
  | none, _ => true
  | some h, kd => h == kd

/-- One target matches a node: parent-path suffix check, leaf literal
equality (an empty leaf passes), kind allow-list, kind hint. -/
def specMatches (allowed : Option (List String)) (t : Target) (stack : List String)
    (nm kd : String) : Bool :=
  parentOk t.parentPath stack && (t.leaf == "" || t.leaf == nm)
    && kindAllowed allowed kd && hintOk t.kindHint kd

/-! ## The update pass (`_update_ast_node_exceptions`). -/

structure UpdSt where
  updated : Nat
  alreadySame : Nat
  matched : List String
deriving Repr, DecidableEq

/-- The node-local effect of one matching target: record the matched
name, then either skip under the explicit-zero gate, flip the value when
it differs from the target, or count it as already the same. -/
def applyOne (onlyZero : Bool) (tgt : Int) (nm : String) (exc : Option Int)
    (st : UpdSt) : Option Int × UpdSt :=
  let st1 := if nm ≠ "" then { st with matched := st.matched.insert nm } else st
  let prev : Int := exc.getD 0
  if onlyZero && tgt == 1 && !(exc.isSome && prev == 0) then
    (exc, { st1 with alreadySame := st1.alreadySame + 1 })
  else if prev != tgt then
    (some tgt, { st1 with updated := st1.updated + 1 })
  else
    (exc, { st1 with alreadySame := st1.alreadySame + 1 })

/-- The per-node loop over all parsed targets, threading the node's
`isException` value, the matched-here flag, and the counters. -/
def stepTargets (onlyZero : Bool) (tgt : Int) (allowed : Option (List String))
    (stack : List String) (nm kd : String) :
    List Target → Option Int → Bool → UpdSt → Option Int × Bool × UpdSt
  | [], exc, mh, st => (exc, mh, st)
  | t :: ts, exc, mh, st =>
    if specMatches allowed t stack nm kd then
      let r := applyOne onlyZero tgt nm exc st
      stepTargets onlyZero tgt allowed stack nm kd ts r.1 true r.2
    else
      stepTargets onlyZero tgt allowed stack nm kd ts exc mh st

structure UParams where
  targets : List Target
  allowed : Option (List String)
  tgt : Int
  lock : Bool
  onlyZero : Bool

/-- Whether any parsed target matches the canonical node at `stack`. -/
def nodeMatchesAt (P : UParams) (stack : List String) (a : Ast) : Bool :=
  P.targets.any (fun t =>
    specMatches P.allowed t stack (pyStrip a.curOf.rawName) (pyLower (pyStrip a.curOf.rawKind)))

mutual

/-- `_walk`: unwrap, run the target loop on the canonical node, and
unless cascade-prevention fired here, traverse the canonical node's
containers (including a doubly-nested wrapper) and then the wrapper's
sibling containers. -/
def walkNode (P : UParams) : Ast → List String → UpdSt → Ast × UpdSt
  | .mk n k ex ni g c m e (some (.mk cn ck cex cni cg cc cm ce cw)), stack, st =>
    match stepTargets P.onlyZero P.tgt P.allowed stack (pyStrip cn)
        (pyLower (pyStrip ck)) P.targets cex false st with
    | (ex2, mh, st1) =>
      if P.lock && mh then
        (.mk n k ex ni g c m e
          (some (.mk cn ck ex2 (cni || (P.lock && mh)) cg cc cm ce cw)), st1)
      else
        let next := stack ++ (if pyStrip cn = "" then [] else [pyStrip cn])
        match walkList P cg next st1 with
        | (cg2, st2) =>
        match walkList P cc next st2 with
        | (cc2, st3) =>
        match walkList P cm next st3 with
        | (cm2, st4) =>
        match walkList P ce next st4 with
        | (ce2, st5) =>
        match walkWrap P cw next st5 with
        | (cw2, st6) =>
        match walkList P g next st6 with
        | (g2, st7) =>
        match walkList P c next st7 with
        | (c2, st8) =>
        match walkList P m next st8 with
        | (m2, st9) =>
        match walkList P e next st9 with
        | (e2, st10) =>
          (.mk n k ex ni g2 c2 m2 e2
            (some (.mk cn ck ex2 (cni || (P.lock && mh)) cg2 cc2 cm2 ce2 cw2)), st10)
  | .mk n k ex ni g c m e none, stack, st =>
    match stepTargets P.onlyZero P.tgt P.allowed stack (pyStrip n)
        (pyLower (pyStrip k)) P.targets ex false st with
    | (ex2, mh, st1) =>
      if P.lock && mh then
        (.mk n k ex2 (ni || (P.lock && mh)) g c m e none, st1)
      else
        let next := stack ++ (if pyStrip n = "" then [] else [pyStrip n])
        match walkList P g next st1 with
        | (g2, st2) =>
        match walkList P c next st2 with
        | (c2, st3) =>
        match walkList P m next st3 with
        | (m2, st4) =>
        match walkList P e next st4 with
        | (e2, st5) =>
          (.mk n k ex2 (ni || (P.lock && mh)) g2 c2 m2 e2 none, st5)

/-- The `node` container entry of the canonical node, walked when it is a
dictionary. -/
def walkWrap (P : UParams) : Option Ast → List String → UpdSt → Option Ast × UpdSt
  | some inner, stack, st =>
    (match walkNode P inner stack st with
     | (w2, st6) => (some w2, st6))
  | none, _, st => (none, st)

def walkList (P : UParams) : List Ast → List String → UpdSt → List Ast × UpdSt
  | [], _, st => ([], st)
  | a :: rest, stack, st =>
    match walkNode P a stack st with
    | (a2, st1) =>
      match walkList P rest stack st1 with
      | (l2, st2) => (a2 :: l2, st2)

end

structure RunResult where
  tree : List Ast
  changedNodes : Nat
  alreadySameNodes : Nat
  matchedIdentNames : List String
  missingIdentNames : List String
  writesBack : Bool

/-- Model of `_update_ast_node_exceptions`: parse the specs, normalize the
kind allow-list, walk every top-level node with an empty ancestor stack,
compute `missing = requested leaf names − matched names`, and write the
document back exactly when at least one node's value changed. -/
def updateAstNodeExceptions (identifiersToUpdate : List String) (isExc : Int)
    (allowedKinds : Option (List String)) (lockChildren onlyWhenExplicitZero : Bool)
    (astList : List Ast) : RunResult :=
  let P : UParams :=
    ⟨parsedTargets identifiersToUpdate, normAllowedKinds allowedKinds,
      isExc, lockChildren, onlyWhenExplicitZero⟩
  let r := walkList P astList [] ⟨0, 0, []⟩
  let requested := ((P.targets.map Target.leaf).filter (fun l => l ≠ "")).dedup
  let missing := requested.filter (fun l => !(r.2.matched.contains l))
  ⟨r.1, r.2.updated, r.2.alreadySame, r.2.matched, missing, decide (0 < r.2.updated)⟩

/-! ## The sequence of protection values of a tree (document projection).

`excsOf` lists every node's `isException` value in the traversal order of
the stored document; two trees with equal `excsOf` sequences carry the
same protection data. -/

mutual

def excsOf : Ast → List (Option Int)
  | .mk _ _ ex _ g c m e w =>
    ex :: (excsList g ++ excsList c ++ excsList m ++ excsList e ++
      (match w with
       | some a => excsOf a
       | none => []))

def excsList : List Ast → List (Option Int)
  | [] => []
  | a :: rest => excsOf a ++ excsList rest

end

/-! ## Conflict detection (`check_exception_conflicts`, conflicts.py).

Include entries: a stripped entry without `*`/`?` is used literally; an
entry with a wildcard is expanded against the protected-name index
`ex_names` by `fnmatchcase`. Conflicts are the intersection with
`ex_names`. -/

def isWildcardItem (item : String) : Bool :=
  pyContainsChar item '*' || pyContainsChar item '?'

def configIncludeNames : List String → List String → List String
  | [], _ => []
  | item :: rest, exNames =>
    (let it := pyStrip item
     if it = "" then []
     else if isWildcardItem it then exNames.filter (fun ex => fnmatchcase ex it)
     else [it]) ++ configIncludeNames rest exNames

def conflictSet (includeItems exNames : List String) : List String :=
  (configIncludeNames includeItems exNames).filter (fun nm => exNames.contains nm)

/-- The conflict-membership condition in the words of the specification:
a name conflicts when it is protected and either equals a literal include
entry or glob-matches a wildcard include entry. -/
def conflictSpecMem (includeItems exNames : List String) (x : String) : Prop :=
  x ∈ exNames ∧ ∃ item ∈ includeItems, pyStrip item ≠ "" ∧
    ((isWildcardItem (pyStrip item) = false ∧ pyStrip item = x) ∨
     (isWildcardItem (pyStrip item) = true ∧ fnmatchcase x (pyStrip item) = true))

/-! ## Candidate discovery (`_check_exclude_sensitive_identifiers`).

Candidates come from the `exclude.obfuscation` entries matched against the
project identifier scan. The protected-name index `exNames` is a parameter
of the Python function but is never consulted when building the set. -/

def excludeCandidates : List String → List String → List String → List String
  | [], _, _ => []
  | item :: rest, projectIdentifiers, exNames =>
    (let nm := pyStrip item
     if nm = "" then []
     else if isWildcardItem nm then
       projectIdentifiers.filter (fun pid => fnmatchcase pid nm)
     else if projectIdentifiers.contains nm then [nm]
     else []) ++ excludeCandidates rest projectIdentifiers exNames

/-! ## Policy resolution for include-vs-protected conflicts
(`check_exception_conflicts`, conflicts.py, non-empty conflict set).

`force` applies the removal immediately; `skip` records and does nothing;
anything else asks: end-of-input (`EOFError`) and interruption
(`KeyboardInterrupt`) raise `SystemExit(1)`; an answer of `y`/`yes`
(stripped, lowered) applies the removal; any other answer prints a
cancellation message and the run continues. -/

inductive PromptAnswer where
  | ok (s : String)
  | endOfInput
  | interrupted
deriving Repr, DecidableEq

inductive ConflictOutcome where
  | aborted (exitCode : Nat)
  | appliedRemoval
  | skippedByPolicy
  | declinedContinue
deriving Repr, DecidableEq

def isAborted : ConflictOutcome → Bool
  | .aborted _ => true
  | _ => false

def resolveIncludeConflict (policy : String) (ans : PromptAnswer) : ConflictOutcome :=
  if policy == "force" then .appliedRemoval
  else if policy == "skip" then .skippedByPolicy
  else
    match ans with
    | .endOfInput => .aborted 1
    | .interrupted => .aborted 1
    | .ok s =>
      let a := pyLower (pyStrip s)
      if a == "y" || a == "yes" then .appliedRemoval else .declinedContinue

/-- On an approved (or forced) resolution, the tree action taken by the
code: `_update_ast_node_exceptions(ast_file, conflicts, is_exception=0,
allowed_kinds={"function"}, lock_children=True)`. -/
def applyConflictRemoval (conflicts : List String) (astList : List Ast) : RunResult :=
  updateAstNodeExceptions conflicts 0 (some ["function"]) true false astList

/-! ## Proof infrastructure. -/

/-- Mutual induction over the nested declaration-tree type. -/
theorem astInd (Pn : Ast → Prop) (Pl : List Ast → Prop)
    (hnil : Pl [])
    (hcons : ∀ a l, Pn a → Pl l → Pl (a :: l))
    (hmk : ∀ n k ex ni g c m e w, Pl g → Pl c → Pl m → Pl e →
      (∀ b, w = some b → Pn b) → Pn (.mk n k ex ni g c m e w)) :
    (∀ a, Pn a) ∧ (∀ l, Pl l) := by
  have hn : ∀ a, Pn a := by
    intro a
    refine Ast.rec (motive_1 := Pn) (motive_2 := Pl)
      (motive_3 := fun w => ∀ b, w = some b → Pn b)
      (fun n k ex ni g c m e w hg hc hm he hw => hmk n k ex ni g c m e w hg hc hm he hw)
      hnil (fun h t ph pt => hcons h t ph pt)
      (fun b hb => by cases hb)
      (fun v pv b hb => by injection hb with h; exact h ▸ pv) a
  refine ⟨hn, ?_⟩
  intro l
  induction l with
  | nil => exact hnil
  | cons h t iht => exact hcons h t (hn h) iht

/-- The pure `isException` transformation of one matching target. -/
def applyOneExc (oz : Bool) (tgt : Int) (exc : Option Int) : Option Int :=
  if oz && tgt == 1 && !(exc.isSome && exc.getD 0 == 0) then exc
  else if exc.getD 0 != tgt then some tgt
  else exc

/-- The pure `isException` transformation of the whole target loop. -/
def stepExcOnly (oz : Bool) (tgt : Int) (alw : Option (List String))
    (stack : List String) (nm kd : String) : List Target → Option Int → Option Int
  | [], exc => exc
  | t :: ts, exc =>
    if specMatches alw t stack nm kd then
      stepExcOnly oz tgt alw stack nm kd ts (applyOneExc oz tgt exc)
    else
      stepExcOnly oz tgt alw stack nm kd ts exc

theorem applyOne_fst (oz : Bool) (tgt : Int) (nm : String) (exc : Option Int)
    (st : UpdSt) : (applyOne oz tgt nm exc st).1 = applyOneExc oz tgt exc := by
  simp only [applyOne, applyOneExc]
  split <;> split <;> simp_all

theorem applyOne_updated (oz : Bool) (tgt : Int) (nm : String) (exc : Option Int)
    (st : UpdSt) :
    (applyOne oz tgt nm exc st).2.updated =
      st.updated + (if applyOneExc oz tgt exc ≠ exc then 1 else 0) := by
  simp only [applyOne, applyOneExc]
  rcases exc with _ | v <;> split <;> split <;>
    simp_all [bne_iff_ne] <;> split <;> simp_all [eq_comm]

theorem applyOne_alreadySame (oz : Bool) (tgt : Int) (nm : String) (exc : Option Int)
    (st : UpdSt) :
    (applyOne oz tgt nm exc st).2.alreadySame =
      st.alreadySame + (if applyOneExc oz tgt exc ≠ exc then 0 else 1) := by
  simp only [applyOne, applyOneExc]
  rcases exc with _ | v <;> split <;> split <;>
    simp_all [bne_iff_ne] <;> split <;> simp_all [eq_comm]

theorem applyOneExc_some_tgt (oz : Bool) (tgt : Int) :
    applyOneExc oz tgt (some tgt) = some tgt := by
  unfold applyOneExc
  split <;> simp

theorem applyOneExc_mem (oz : Bool) (tgt : Int) (exc : Option Int) :
    applyOneExc oz tgt exc = exc ∨ applyOneExc oz tgt exc = some tgt := by
  unfold applyOneExc
  split
  · exact Or.inl rfl
  · split
    · exact Or.inr rfl
    · exact Or.inl rfl

theorem stepExcOnly_of_fix (oz : Bool) (tgt : Int) (alw : Option (List String))
    (stack : List String) (nm kd : String) (ts : List Target) (exc : Option Int)
    (h : applyOneExc oz tgt exc = exc) :
    stepExcOnly oz tgt alw stack nm kd ts exc = exc := by
  induction ts with
  | nil => rfl
  | cons t ts ih =>
    unfold stepExcOnly
    split
    · rw [h]; exact ih
    · exact ih

theorem stepExcOnly_some_tgt (oz : Bool) (tgt : Int) (alw : Option (List String))
    (stack : List String) (nm kd : String) (ts : List Target) :
    stepExcOnly oz tgt alw stack nm kd ts (some tgt) = some tgt :=
  stepExcOnly_of_fix oz tgt alw stack nm kd ts (some tgt) (applyOneExc_some_tgt oz tgt)

theorem stepExcOnly_mem (oz : Bool) (tgt : Int) (alw : Option (List String))
    (stack : List String) (nm kd : String) (ts : List Target) (exc : Option Int) :
    stepExcOnly oz tgt alw stack nm kd ts exc = exc ∨
      stepExcOnly oz tgt alw stack nm kd ts exc = some tgt := by
  induction ts generalizing exc with
  | nil => exact Or.inl rfl
  | cons t ts ih =>
    unfold stepExcOnly
    split
    · rcases applyOneExc_mem oz tgt exc with h | h
      · rw [h]; exact ih exc
      · rw [h]
        exact Or.inr (stepExcOnly_some_tgt oz tgt alw stack nm kd ts)
    · exact ih exc

theorem stepExcOnly_idem (oz : Bool) (tgt : Int) (alw : Option (List String))
    (stack : List String) (nm kd : String) (ts : List Target) (exc : Option Int) :
    stepExcOnly oz tgt alw stack nm kd ts (stepExcOnly oz tgt alw stack nm kd ts exc) =
      stepExcOnly oz tgt alw stack nm kd ts exc := by
  rcases stepExcOnly_mem oz tgt alw stack nm kd ts exc with h | h <;> rw [h]
  · rw [h]
  · exact stepExcOnly_some_tgt oz tgt alw stack nm kd ts

theorem stepTargets_fst (oz : Bool) (tgt : Int) (alw : Option (List String))
    (stack : List String) (nm kd : String) (ts : List Target) (exc : Option Int)
    (mh : Bool) (st : UpdSt) :
    (stepTargets oz tgt alw stack nm kd ts exc mh st).1 =
      stepExcOnly oz tgt alw stack nm kd ts exc := by
  induction ts generalizing exc mh st with
  | nil => rfl
  | cons t ts ih =>
    unfold stepTargets stepExcOnly
    split
    · simp only [applyOne_fst]; exact ih _ _ _
    · exact ih _ _ _

theorem stepTargets_mh (oz : Bool) (tgt : Int) (alw : Option (List String))
    (stack : List String) (nm kd : String) (ts : List Target) (exc : Option Int)
    (mh : Bool) (st : UpdSt) :
    (stepTargets oz tgt alw stack nm kd ts exc mh st).2.1 =
      (mh || ts.any (fun t => specMatches alw t stack nm kd)) := by
  induction ts generalizing exc mh st with
  | nil => simp [stepTargets]
  | cons t ts ih =>
    unfold stepTargets
    rw [List.any_cons]
    split <;> rename_i hsp
    · simp only [ih]
      simp [hsp]
    · simp only [ih]
      simp [hsp]

theorem stepTargets_updated (oz : Bool) (tgt : Int) (alw : Option (List String))
    (stack : List String) (nm kd : String) (ts : List Target) (exc : Option Int)
    (mh : Bool) (st : UpdSt) :
    (stepTargets oz tgt alw stack nm kd ts exc mh st).2.2.updated =
      st.updated +
        (if stepExcOnly oz tgt alw stack nm kd ts exc ≠ exc then 1 else 0) := by
  induction ts generalizing exc mh st with
  | nil => simp [stepTargets, stepExcOnly]
  | cons t ts ih =>
    unfold stepTargets stepExcOnly
    split
    · rw [ih, applyOne_updated, applyOne_fst]
      rcases applyOneExc_mem oz tgt exc with h | h
      · rw [h]; simp
      · rw [h, stepExcOnly_some_tgt]
        by_cases hx : some tgt = exc
        · rw [← hx] at h ⊢
          simp [h]
        · have : applyOneExc oz tgt exc ≠ exc := by rw [h]; exact hx
          simp [this, hx, Ne.symm]
    · exact ih _ _ _

/-- Induction principle shaped like the recursion of `walkNode`: the node
case may assume the list property for the node's own containers, and — when
the node is wrapped — for the canonical node's containers plus the node
property for a doubly-nested wrapper. -/
theorem walkInd (MainN : Ast → Prop) (MainL : List Ast → Prop)
    (hnil : MainL [])
    (hcons : ∀ a l, MainN a → MainL l → MainL (a :: l))
    (hnode : ∀ n k ex ni g c m e w,
      MainL g → MainL c → MainL m → MainL e →
      (∀ cn ck cex cni cg cc cm ce cw, w = some (.mk cn ck cex cni cg cc cm ce cw) →
        MainL cg ∧ MainL cc ∧ MainL cm ∧ MainL ce ∧ (∀ b, cw = some b → MainN b)) →
      MainN (.mk n k ex ni g c m e w)) :
    (∀ a, MainN a) ∧ (∀ l, MainL l) := by
  have H := astInd
    (fun a => MainN a ∧ MainL a.gOf ∧ MainL a.chOf ∧ MainL a.mOf ∧ MainL a.eOf ∧
      (∀ b, a.wrapOf = some b → MainN b))
    MainL hnil (fun a l ha hl => hcons a l ha.1 hl) ?_
  · exact ⟨fun a => (H.1 a).1, H.2⟩
  · intro n k ex ni g c m e w hg hc hm he hw
    refine ⟨?_, hg, hc, hm, he, fun b hb => (hw b hb).1⟩
    refine hnode n k ex ni g c m e w hg hc hm he ?_
    intro cn ck cex cni cg cc cm ce cw hcw
    have hcur := hw _ hcw
    exact ⟨hcur.2.1, hcur.2.2.1, hcur.2.2.2.1, hcur.2.2.2.2.1, hcur.2.2.2.2.2⟩

def stZero : UpdSt := ⟨0, 0, []⟩

/-- The walk's tree output does not depend on the incoming counter state,
and its `updated` counter is additive in the incoming state. -/
theorem walkExists (P : UParams) :
    (∀ a, ∀ stack, ∃ t dd, ∀ st, (walkNode P a stack st).1 = t ∧
      (walkNode P a stack st).2.updated = st.updated + dd) ∧
    (∀ l, ∀ stack, ∃ t dd, ∀ st, (walkList P l stack st).1 = t ∧
      (walkList P l stack st).2.updated = st.updated + dd) := by
  refine walkInd _ _ ?_ ?_ ?_
  · intro stack
    exact ⟨[], 0, fun st => by simp [walkList]⟩
  · intro a l ha hl stack
    obtain ⟨ta, da, hA⟩ := ha stack
    obtain ⟨tl, dl, hL⟩ := hl stack
    refine ⟨ta :: tl, da + dl, ?_⟩
    intro st
    simp only [walkList]
    rcases hN : walkNode P a stack st with ⟨a2, st1⟩
    rcases hR : walkList P l stack st1 with ⟨l2, st2⟩
    have e1 := (hA st); rw [hN] at e1
    have e2 := (hL st1); rw [hR] at e2
    dsimp only at e1 e2 ⊢
    refine ⟨by rw [e1.1, e2.1], ?_⟩
    have := e1.2
    have := e2.2
    omega
  · intro n k ex ni g c m e w hg hc hm he hw stack
    rcases w with _ | ⟨cn, ck, cex, cni, cg, cc, cm, ce, cw⟩
    · obtain ⟨tg, dg, hgs⟩ := hg (stack ++ (if pyStrip n = "" then [] else [pyStrip n]))
      obtain ⟨tc, dc, hcs⟩ := hc (stack ++ (if pyStrip n = "" then [] else [pyStrip n]))
      obtain ⟨tm, dm, hms⟩ := hm (stack ++ (if pyStrip n = "" then [] else [pyStrip n]))
      obtain ⟨te, de, hes⟩ := he (stack ++ (if pyStrip n = "" then [] else [pyStrip n]))
      by_cases hLM : (P.lock &&
          (P.targets.any (fun t => specMatches P.allowed t stack (pyStrip n)
            (pyLower (pyStrip k))))) = true
      · refine ⟨.mk n k
          (stepExcOnly P.onlyZero P.tgt P.allowed stack (pyStrip n)
            (pyLower (pyStrip k)) P.targets ex)
          (ni || (P.lock && (P.targets.any (fun t => specMatches P.allowed t stack
            (pyStrip n) (pyLower (pyStrip k)))))) g c m e none,
          (if stepExcOnly P.onlyZero P.tgt P.allowed stack (pyStrip n)
            (pyLower (pyStrip k)) P.targets ex ≠ ex then 1 else 0), ?_⟩
        intro st
        simp only [walkNode]
        rcases hS : stepTargets P.onlyZero P.tgt P.allowed stack (pyStrip n)
          (pyLower (pyStrip k)) P.targets ex false st with ⟨ex2, mh, st1⟩
        have hmh := stepTargets_mh P.onlyZero P.tgt P.allowed stack (pyStrip n)
          (pyLower (pyStrip k)) P.targets ex false st
        rw [hS] at hmh; simp only [Bool.false_or] at hmh
        have hex2 := stepTargets_fst P.onlyZero P.tgt P.allowed stack (pyStrip n)
          (pyLower (pyStrip k)) P.targets ex false st
        rw [hS] at hex2
        have hu1 := stepTargets_updated P.onlyZero P.tgt P.allowed stack (pyStrip n)
          (pyLower (pyStrip k)) P.targets ex false st
        rw [hS] at hu1
        dsimp only at hmh hex2 hu1 ⊢
        rw [hmh, hex2, if_pos hLM]
        exact ⟨rfl, hu1⟩
      · refine ⟨.mk n k
          (stepExcOnly P.onlyZero P.tgt P.allowed stack (pyStrip n)
            (pyLower (pyStrip k)) P.targets ex)
          (ni || (P.lock && (P.targets.any (fun t => specMatches P.allowed t stack
            (pyStrip n) (pyLower (pyStrip k)))))) tg tc tm te none,
          (if stepExcOnly P.onlyZero P.tgt P.allowed stack (pyStrip n)
            (pyLower (pyStrip k)) P.targets ex ≠ ex then 1 else 0) + (dg + dc + dm + de), ?_⟩
        intro st
        simp only [walkNode]
        rcases hS : stepTargets P.onlyZero P.tgt P.allowed stack (pyStrip n)
          (pyLower (pyStrip k)) P.targets ex false st with ⟨ex2, mh, st1⟩
        have hmh := stepTargets_mh P.onlyZero P.tgt P.allowed stack (pyStrip n)
          (pyLower (pyStrip k)) P.targets ex false st
        rw [hS] at hmh; simp only [Bool.false_or] at hmh
        have hex2 := stepTargets_fst P.onlyZero P.tgt P.allowed stack (pyStrip n)
          (pyLower (pyStrip k)) P.targets ex false st
        rw [hS] at hex2
        have hu1 := stepTargets_updated P.onlyZero P.tgt P.allowed stack (pyStrip n)
          (pyLower (pyStrip k)) P.targets ex false st
        rw [hS] at hu1
        dsimp only at hmh hex2 hu1 ⊢
        rw [hmh, hex2, if_neg hLM]
        rcases hG : walkList P g
          (stack ++ (if pyStrip n = "" then [] else [pyStrip n])) st1 with ⟨g2, st2⟩
        have eg := hgs st1; rw [hG] at eg; dsimp only at eg
        rcases hC : walkList P c
          (stack ++ (if pyStrip n = "" then [] else [pyStrip n])) st2 with ⟨c2, st3⟩
        have ec := hcs st2; rw [hC] at ec; dsimp only at ec
        rcases hM : walkList P m
          (stack ++ (if pyStrip n = "" then [] else [pyStrip n])) st3 with ⟨m2, st4⟩
        have em := hms st3; rw [hM] at em; dsimp only at em
        rcases hE : walkList P e
          (stack ++ (if pyStrip n = "" then [] else [pyStrip n])) st4 with ⟨e2, st5⟩
        have ee := hes st4; rw [hE] at ee; dsimp only at ee
        dsimp only
        refine ⟨by rw [eg.1, ec.1, em.1, ee.1], ?_⟩
        have h1 := eg.2
        have h2 := ec.2
        have h3 := em.2
        have h4 := ee.2
        omega
    · obtain ⟨hcg, hcc, hcm, hce, hcwN⟩ := hw cn ck cex cni cg cc cm ce cw rfl
      obtain ⟨tcg, dcg, hcgs⟩ := hcg (stack ++ (if pyStrip cn = "" then [] else [pyStrip cn]))
      obtain ⟨tcc, dcc, hccs⟩ := hcc (stack ++ (if pyStrip cn = "" then [] else [pyStrip cn]))
      obtain ⟨tcm, dcm, hcms⟩ := hcm (stack ++ (if pyStrip cn = "" then [] else [pyStrip cn]))
      obtain ⟨tce, dce, hces⟩ := hce (stack ++ (if pyStrip cn = "" then [] else [pyStrip cn]))
      obtain ⟨tg, dg, hgs⟩ := hg (stack ++ (if pyStrip cn = "" then [] else [pyStrip cn]))
      obtain ⟨tc, dc, hcs⟩ := hc (stack ++ (if pyStrip cn = "" then [] else [pyStrip cn]))
      obtain ⟨tm, dm, hms⟩ := hm (stack ++ (if pyStrip cn = "" then [] else [pyStrip cn]))
      obtain ⟨te, de, hes⟩ := he (stack ++ (if pyStrip cn = "" then [] else [pyStrip cn]))
      have hwrap : ∃ tw dw, ∀ st' : UpdSt,
          (walkWrap P cw (stack ++ (if pyStrip cn = "" then [] else [pyStrip cn])) st').1 = tw ∧
          (walkWrap P cw (stack ++ (if pyStrip cn = "" then [] else [pyStrip cn])) st').2.updated =
            st'.updated + dw := by
        rcases cw with _ | inner
        · exact ⟨none, 0, fun st' => by simp [walkWrap]⟩
        · obtain ⟨ti, di, his⟩ := hcwN inner rfl
            (stack ++ (if pyStrip cn = "" then [] else [pyStrip cn]))
          refine ⟨some ti, di, fun st' => ?_⟩
          simp only [walkWrap]
          rcases hI : walkNode P inner
            (stack ++ (if pyStrip cn = "" then [] else [pyStrip cn])) st' with ⟨i2, st6⟩
          have ei := his st'; rw [hI] at ei; dsimp only at ei
          dsimp only
          exact ⟨by rw [ei.1], ei.2⟩
      obtain ⟨tw, dw, hws⟩ := hwrap
      by_cases hLM : (P.lock &&
          (P.targets.any (fun t => specMatches P.allowed t stack (pyStrip cn)
            (pyLower (pyStrip ck))))) = true
      · refine ⟨.mk n k ex ni g c m e
          (some (.mk cn ck
            (stepExcOnly P.onlyZero P.tgt P.allowed stack (pyStrip cn)
              (pyLower (pyStrip ck)) P.targets cex)
            (cni || (P.lock && (P.targets.any (fun t => specMatches P.allowed t stack
              (pyStrip cn) (pyLower (pyStrip ck)))))) cg cc cm ce cw)),
          (if stepExcOnly P.onlyZero P.tgt P.allowed stack (pyStrip cn)
            (pyLower (pyStrip ck)) P.targets cex ≠ cex then 1 else 0), ?_⟩
        intro st
        simp only [walkNode]
        rcases hS : stepTargets P.onlyZero P.tgt P.allowed stack (pyStrip cn)
          (pyLower (pyStrip ck)) P.targets cex false st with ⟨ex2, mh, st1⟩
        have hmh := stepTargets_mh P.onlyZero P.tgt P.allowed stack (pyStrip cn)
          (pyLower (pyStrip ck)) P.targets cex false st
        rw [hS] at hmh; simp only [Bool.false_or] at hmh
        have hex2 := stepTargets_fst P.onlyZero P.tgt P.allowed stack (pyStrip cn)
          (pyLower (pyStrip ck)) P.targets cex false st
        rw [hS] at hex2
        have hu1 := stepTargets_updated P.onlyZero P.tgt P.allowed stack (pyStrip cn)
          (pyLower (pyStrip ck)) P.targets cex false st
        rw [hS] at hu1
        dsimp only at hmh hex2 hu1 ⊢
        rw [hmh, hex2, if_pos hLM]
        exact ⟨rfl, hu1⟩
      · refine ⟨.mk n k ex ni tg tc tm te
          (some (.mk cn ck
            (stepExcOnly P.onlyZero P.tgt P.allowed stack (pyStrip cn)
              (pyLower (pyStrip ck)) P.targets cex)
            (cni || (P.lock && (P.targets.any (fun t => specMatches P.allowed t stack
              (pyStrip cn) (pyLower (pyStrip ck)))))) tcg tcc tcm tce tw)),
          (if stepExcOnly P.onlyZero P.tgt P.allowed stack (pyStrip cn)
            (pyLower (pyStrip ck)) P.targets cex ≠ cex then 1 else 0) +
            (dcg + dcc + dcm + dce + dw + dg + dc + dm + de), ?_⟩
        intro st
        simp only [walkNode]
        rcases hS : stepTargets P.onlyZero P.tgt P.allowed stack (pyStrip cn)
          (pyLower (pyStrip ck)) P.targets cex false st with ⟨ex2, mh, st1⟩
        have hmh := stepTargets_mh P.onlyZero P.tgt P.allowed stack (pyStrip cn)
          (pyLower (pyStrip ck)) P.targets cex false st
        rw [hS] at hmh; simp only [Bool.false_or] at hmh
        have hex2 := stepTargets_fst P.onlyZero P.tgt P.allowed stack (pyStrip cn)
          (pyLower (pyStrip ck)) P.targets cex false st
        rw [hS] at hex2
        have hu1 := stepTargets_updated P.onlyZero P.tgt P.allowed stack (pyStrip cn)
          (pyLower (pyStrip ck)) P.targets cex false st
        rw [hS] at hu1
        dsimp only at hmh hex2 hu1 ⊢
        rw [hmh, hex2, if_neg hLM]
        rcases hCG : walkList P cg
          (stack ++ (if pyStrip cn = "" then [] else [pyStrip cn])) st1 with ⟨cg2, st2⟩
        have ecg := hcgs st1; rw [hCG] at ecg; dsimp only at ecg
        rcases hCC : walkList P cc
          (stack ++ (if pyStrip cn = "" then [] else [pyStrip cn])) st2 with ⟨cc2, st3⟩
        have ecc := hccs st2; rw [hCC] at ecc; dsimp only at ecc
        rcases hCM : walkList P cm
          (stack ++ (if pyStrip cn = "" then [] else [pyStrip cn])) st3 with ⟨cm2, st4⟩
        have ecm := hcms st3; rw [hCM] at ecm; dsimp only at ecm
        rcases hCE : walkList P ce
          (stack ++ (if pyStrip cn = "" then [] else [pyStrip cn])) st4 with ⟨ce2, st5⟩
        have ece := hces st4; rw [hCE] at ece; dsimp only at ece
        rcases hW : walkWrap P cw
          (stack ++ (if pyStrip cn = "" then [] else [pyStrip cn])) st5 with ⟨cw2, st6⟩
        have ew := hws st5; rw [hW] at ew; dsimp only at ew
        rcases hG : walkList P g
          (stack ++ (if pyStrip cn = "" then [] else [pyStrip cn])) st6 with ⟨g2, st7⟩
        have eg := hgs st6; rw [hG] at eg; dsimp only at eg
        rcases hC : walkList P c
          (stack ++ (if pyStrip cn = "" then [] else [pyStrip cn])) st7 with ⟨c2, st8⟩
        have ec := hcs st7; rw [hC] at ec; dsimp only at ec
        rcases hM : walkList P m
          (stack ++ (if pyStrip cn = "" then [] else [pyStrip cn])) st8 with ⟨m2, st9⟩
        have em := hms st8; rw [hM] at em; dsimp only at em
        rcases hE : walkList P e
          (stack ++ (if pyStrip cn = "" then [] else [pyStrip cn])) st9 with ⟨e2, st10⟩
        have ee := hes st9; rw [hE] at ee; dsimp only at ee
        dsimp only
        refine ⟨by rw [ecg.1, ecc.1, ecm.1, ece.1, ew.1, eg.1, ec.1, em.1, ee.1], ?_⟩
        have h1 := ecg.2
        have h2 := ecc.2
        have h3 := ecm.2
        have h4 := ece.2
        have h5 := ew.2
        have h6 := eg.2
        have h7 := ec.2
        have h8 := em.2
        have h9 := ee.2
        omega

/-! ### Functional view of the walk.

`walkExists` lets the walk be split into a state-independent tree
transformation and an additive changed-node count. -/

def walkFN (P : UParams) (a : Ast) (stack : List String) : Ast :=
  (walkNode P a stack stZero).1

def deltaN (P : UParams) (a : Ast) (stack : List String) : Nat :=
  (walkNode P a stack stZero).2.updated

def walkFL (P : UParams) (l : List Ast) (stack : List String) : List Ast :=
  (walkList P l stack stZero).1

def deltaL (P : UParams) (l : List Ast) (stack : List String) : Nat :=
  (walkList P l stack stZero).2.updated

theorem walkNode_fst (P : UParams) (a : Ast) (stack : List String) (st : UpdSt) :
    (walkNode P a stack st).1 = walkFN P a stack := by
  obtain ⟨t, dd, h⟩ := (walkExists P).1 a stack
  rw [(h st).1, walkFN, (h stZero).1]

theorem walkNode_upd (P : UParams) (a : Ast) (stack : List String) (st : UpdSt) :
    (walkNode P a stack st).2.updated = st.updated + deltaN P a stack := by
  obtain ⟨t, dd, h⟩ := (walkExists P).1 a stack
  rw [(h st).2, deltaN, (h stZero).2]
  have : stZero.updated = 0 := rfl
  omega

theorem walkList_fst (P : UParams) (l : List Ast) (stack : List String) (st : UpdSt) :
    (walkList P l stack st).1 = walkFL P l stack := by
  obtain ⟨t, dd, h⟩ := (walkExists P).2 l stack
  rw [(h st).1, walkFL, (h stZero).1]

theorem walkList_upd (P : UParams) (l : List Ast) (stack : List String) (st : UpdSt) :
    (walkList P l stack st).2.updated = st.updated + deltaL P l stack := by
  obtain ⟨t, dd, h⟩ := (walkExists P).2 l stack
  rw [(h st).2, deltaL, (h stZero).2]
  have : stZero.updated = 0 := rfl
  omega

theorem walkFL_nil (P : UParams) (stack : List String) : walkFL P [] stack = [] := rfl

theorem deltaL_nil (P : UParams) (stack : List String) : deltaL P [] stack = 0 := rfl

theorem walkFL_cons (P : UParams) (a : Ast) (l : List Ast) (stack : List String) :
    walkFL P (a :: l) stack = walkFN P a stack :: walkFL P l stack := by
  unfold walkFL
  simp only [walkList]
  rcases hN : walkNode P a stack stZero with ⟨a2, st1⟩
  rcases hR : walkList P l stack st1 with ⟨l2, st2⟩
  dsimp only
  have h1 : a2 = walkFN P a stack := by
    have := walkNode_fst P a stack stZero
    rw [hN] at this
    exact this
  have h2 : l2 = walkFL P l stack := by
    have := walkList_fst P l stack st1
    rw [hR] at this
    exact this
  rw [h1, h2]
  rfl

theorem deltaL_cons (P : UParams) (a : Ast) (l : List Ast) (stack : List String) :
    deltaL P (a :: l) stack = deltaN P a stack + deltaL P l stack := by
  unfold deltaL
  simp only [walkList]
  rcases hN : walkNode P a stack stZero with ⟨a2, st1⟩
  rcases hR : walkList P l stack st1 with ⟨l2, st2⟩
  dsimp only
  have h1 : st1.updated = stZero.updated + deltaN P a stack := by
    have := walkNode_upd P a stack stZero
    rw [hN] at this
    exact this
  have h2 : st2.updated = st1.updated + deltaL P l stack := by
    have := walkList_upd P l stack st1
    rw [hR] at this
    exact this
  have h3 : stZero.updated = 0 := rfl
  have h4 : (walkList P l stack stZero).2.updated = deltaL P l stack := rfl
  omega

/-- Abbreviation: some parsed target matches name `nm` and kind `kd` at
`stack`. -/
def anyMatch (P : UParams) (stack : List String) (nm kd : String) : Bool :=
  P.targets.any (fun t => specMatches P.allowed t stack nm kd)

def walkFW (P : UParams) (cw : Option Ast) (stack : List String) : Option Ast :=
  (walkWrap P cw stack stZero).1

def deltaW (P : UParams) (cw : Option Ast) (stack : List String) : Nat :=
  (walkWrap P cw stack stZero).2.updated

theorem walkWrap_fst (P : UParams) (cw : Option Ast) (stack : List String) (st : UpdSt) :
    (walkWrap P cw stack st).1 = walkFW P cw stack := by
  rcases cw with _ | a
  · simp [walkWrap, walkFW]
  · unfold walkFW
    simp only [walkWrap]
    rcases hN : walkNode P a stack st with ⟨a2, st1⟩
    rcases hZ : walkNode P a stack stZero with ⟨a3, st2⟩
    have h1 := walkNode_fst P a stack st
    have h2 := walkNode_fst P a stack stZero
    rw [hN] at h1
    rw [hZ] at h2
    dsimp only at h1 h2 ⊢
    rw [h1, h2]

theorem walkWrap_upd (P : UParams) (cw : Option Ast) (stack : List String) (st : UpdSt) :
    (walkWrap P cw stack st).2.updated = st.updated + deltaW P cw stack := by
  rcases cw with _ | a
  · simp [walkWrap, deltaW, walkWrap, stZero]
  · unfold deltaW
    simp only [walkWrap]
    rcases hN : walkNode P a stack st with ⟨a2, st1⟩
    rcases hZ : walkNode P a stack stZero with ⟨a3, st2⟩
    have h1 := walkNode_upd P a stack st
    have h2 := walkNode_upd P a stack stZero
    rw [hN] at h1
    rw [hZ] at h2
    have h3 : stZero.updated = 0 := rfl
    dsimp only at h1 h2 ⊢
    omega

theorem walkFW_none (P : UParams) (stack : List String) : walkFW P none stack = none := rfl

theorem deltaW_none (P : UParams) (stack : List String) : deltaW P none stack = 0 := rfl

theorem walkFW_some (P : UParams) (a : Ast) (stack : List String) :
    walkFW P (some a) stack = some (walkFN P a stack) := by
  unfold walkFW
  simp only [walkWrap]
  rcases hZ : walkNode P a stack stZero with ⟨a3, st2⟩
  have h2 := walkNode_fst P a stack stZero
  rw [hZ] at h2
  dsimp only at h2 ⊢
  rw [h2]

theorem deltaW_some (P : UParams) (a : Ast) (stack : List String) :
    deltaW P (some a) stack = deltaN P a stack := by
  unfold deltaW
  simp only [walkWrap]
  rcases hZ : walkNode P a stack stZero with ⟨a3, st2⟩
  have h2 := walkNode_upd P a stack stZero
  rw [hZ] at h2
  have h3 : stZero.updated = 0 := rfl
  dsimp only at h2 ⊢
  omega

/-- The tree transformation at an unwrapped node: run the target loop on
the node's own value; descend only when cascade-prevention did not fire. -/
theorem walkFN_unwrapped (P : UParams) (n k : String) (ex : Option Int) (ni : Bool)
    (g c m e : List Ast) (stack : List String) :
    walkFN P (.mk n k ex ni g c m e none) stack =
      (if P.lock && anyMatch P stack (pyStrip n) (pyLower (pyStrip k)) then
        .mk n k
          (stepExcOnly P.onlyZero P.tgt P.allowed stack (pyStrip n)
            (pyLower (pyStrip k)) P.targets ex)
          (ni || (P.lock && anyMatch P stack (pyStrip n) (pyLower (pyStrip k))))
          g c m e none
      else
        .mk n k
          (stepExcOnly P.onlyZero P.tgt P.allowed stack (pyStrip n)
            (pyLower (pyStrip k)) P.targets ex)
          (ni || (P.lock && anyMatch P stack (pyStrip n) (pyLower (pyStrip k))))
          (walkFL P g (stack ++ (if pyStrip n = "" then [] else [pyStrip n])))
          (walkFL P c (stack ++ (if pyStrip n = "" then [] else [pyStrip n])))
          (walkFL P m (stack ++ (if pyStrip n = "" then [] else [pyStrip n])))
          (walkFL P e (stack ++ (if pyStrip n = "" then [] else [pyStrip n])))
          none) := by
  unfold walkFN
  simp only [walkNode]
  rcases hS : stepTargets P.onlyZero P.tgt P.allowed stack (pyStrip n)
    (pyLower (pyStrip k)) P.targets ex false stZero with ⟨ex2, mh, st1⟩
  have hmh := stepTargets_mh P.onlyZero P.tgt P.allowed stack (pyStrip n)
    (pyLower (pyStrip k)) P.targets ex false stZero
  rw [hS] at hmh; simp only [Bool.false_or] at hmh
  have hex2 := stepTargets_fst P.onlyZero P.tgt P.allowed stack (pyStrip n)
    (pyLower (pyStrip k)) P.targets ex false stZero
  rw [hS] at hex2
  dsimp only at hmh hex2 ⊢
  rw [hmh, hex2]
  show _ = (if P.lock && anyMatch P stack (pyStrip n) (pyLower (pyStrip k)) then _ else _)
  unfold anyMatch
  split
  · rfl
  · rcases hG : walkList P g
      (stack ++ (if pyStrip n = "" then [] else [pyStrip n])) st1 with ⟨g2, st2⟩
    have eg := walkList_fst P g
      (stack ++ (if pyStrip n = "" then [] else [pyStrip n])) st1
    rw [hG] at eg
    rcases hC : walkList P c
      (stack ++ (if pyStrip n = "" then [] else [pyStrip n])) st2 with ⟨c2, st3⟩
    have ec := walkList_fst P c
      (stack ++ (if pyStrip n = "" then [] else [pyStrip n])) st2
    rw [hC] at ec
    rcases hM : walkList P m
      (stack ++ (if pyStrip n = "" then [] else [pyStrip n])) st3 with ⟨m2, st4⟩
    have em := walkList_fst P m
      (stack ++ (if pyStrip n = "" then [] else [pyStrip n])) st3
    rw [hM] at em
    rcases hE : walkList P e
      (stack ++ (if pyStrip n = "" then [] else [pyStrip n])) st4 with ⟨e2, st5⟩
    have ee := walkList_fst P e
      (stack ++ (if pyStrip n = "" then [] else [pyStrip n])) st4
    rw [hE] at ee
    dsimp only at eg ec em ee ⊢
    rw [eg, ec, em, ee]

/-- The changed-node count at an unwrapped node. -/
theorem deltaN_unwrapped (P : UParams) (n k : String) (ex : Option Int) (ni : Bool)
    (g c m e : List Ast) (stack : List String) :
    deltaN P (.mk n k ex ni g c m e none) stack =
      (if stepExcOnly P.onlyZero P.tgt P.allowed stack (pyStrip n)
          (pyLower (pyStrip k)) P.targets ex ≠ ex then 1 else 0) +
      (if P.lock && anyMatch P stack (pyStrip n) (pyLower (pyStrip k)) then 0
       else
        deltaL P g (stack ++ (if pyStrip n = "" then [] else [pyStrip n])) +
        deltaL P c (stack ++ (if pyStrip n = "" then [] else [pyStrip n])) +
        deltaL P m (stack ++ (if pyStrip n = "" then [] else [pyStrip n])) +
        deltaL P e (stack ++ (if pyStrip n = "" then [] else [pyStrip n]))) := by
  unfold deltaN
  simp only [walkNode]
  rcases hS : stepTargets P.onlyZero P.tgt P.allowed stack (pyStrip n)
    (pyLower (pyStrip k)) P.targets ex false stZero with ⟨ex2, mh, st1⟩
  have hmh := stepTargets_mh P.onlyZero P.tgt P.allowed stack (pyStrip n)
    (pyLower (pyStrip k)) P.targets ex false stZero
  rw [hS] at hmh; simp only [Bool.false_or] at hmh
  have hu1 := stepTargets_updated P.onlyZero P.tgt P.allowed stack (pyStrip n)
    (pyLower (pyStrip k)) P.targets ex false stZero
  rw [hS] at hu1
  have hz : stZero.updated = 0 := rfl
  dsimp only at hmh hu1 ⊢
  rw [hmh]
  unfold anyMatch
  split
  · dsimp only
    omega
  · rcases hG : walkList P g
      (stack ++ (if pyStrip n = "" then [] else [pyStrip n])) st1 with ⟨g2, st2⟩
    have eg := walkList_upd P g
      (stack ++ (if pyStrip n = "" then [] else [pyStrip n])) st1
    rw [hG] at eg
    rcases hC : walkList P c
      (stack ++ (if pyStrip n = "" then [] else [pyStrip n])) st2 with ⟨c2, st3⟩
    have ec := walkList_upd P c
      (stack ++ (if pyStrip n = "" then [] else [pyStrip n])) st2
    rw [hC] at ec
    rcases hM : walkList P m
      (stack ++ (if pyStrip n = "" then [] else [pyStrip n])) st3 with ⟨m2, st4⟩
    have em := walkList_upd P m
      (stack ++ (if pyStrip n = "" then [] else [pyStrip n])) st3
    rw [hM] at em
    rcases hE : walkList P e
      (stack ++ (if pyStrip n = "" then [] else [pyStrip n])) st4 with ⟨e2, st5⟩
    have ee := walkList_upd P e
      (stack ++ (if pyStrip n = "" then [] else [pyStrip n])) st4
    rw [hE] at ee
    dsimp only at eg ec em ee ⊢
    omega

/-- The tree transformation at a wrapped node: the target loop runs on the
canonical (inner) node; on descent both the inner containers (and a
doubly-nested wrapper) and the wrapper's sibling containers are walked. -/
theorem walkFN_wrapped (P : UParams) (n k cn ck : String) (ex cex : Option Int)
    (ni cni : Bool) (g c m e cg cc cm ce : List Ast) (cw : Option Ast)
    (stack : List String) :
    walkFN P (.mk n k ex ni g c m e (some (.mk cn ck cex cni cg cc cm ce cw))) stack =
      (if P.lock && anyMatch P stack (pyStrip cn) (pyLower (pyStrip ck)) then
        .mk n k ex ni g c m e
          (some (.mk cn ck
            (stepExcOnly P.onlyZero P.tgt P.allowed stack (pyStrip cn)
              (pyLower (pyStrip ck)) P.targets cex)
            (cni || (P.lock && anyMatch P stack (pyStrip cn) (pyLower (pyStrip ck))))
            cg cc cm ce cw))
      else
        .mk n k ex ni
          (walkFL P g (stack ++ (if pyStrip cn = "" then [] else [pyStrip cn])))
          (walkFL P c (stack ++ (if pyStrip cn = "" then [] else [pyStrip cn])))
          (walkFL P m (stack ++ (if pyStrip cn = "" then [] else [pyStrip cn])))
          (walkFL P e (stack ++ (if pyStrip cn = "" then [] else [pyStrip cn])))
          (some (.mk cn ck
            (stepExcOnly P.onlyZero P.tgt P.allowed stack (pyStrip cn)
              (pyLower (pyStrip ck)) P.targets cex)
            (cni || (P.lock && anyMatch P stack (pyStrip cn) (pyLower (pyStrip ck))))
            (walkFL P cg (stack ++ (if pyStrip cn = "" then [] else [pyStrip cn])))
            (walkFL P cc (stack ++ (if pyStrip cn = "" then [] else [pyStrip cn])))
            (walkFL P cm (stack ++ (if pyStrip cn = "" then [] else [pyStrip cn])))
            (walkFL P ce (stack ++ (if pyStrip cn = "" then [] else [pyStrip cn])))
            (walkFW P cw (stack ++ (if pyStrip cn = "" then [] else [pyStrip cn])))))) := by
  unfold walkFN
  simp only [walkNode]
  rcases hS : stepTargets P.onlyZero P.tgt P.allowed stack (pyStrip cn)
    (pyLower (pyStrip ck)) P.targets cex false stZero with ⟨ex2, mh, st1⟩
  have hmh := stepTargets_mh P.onlyZero P.tgt P.allowed stack (pyStrip cn)
    (pyLower (pyStrip ck)) P.targets cex false stZero
  rw [hS] at hmh; simp only [Bool.false_or] at hmh
  have hex2 := stepTargets_fst P.onlyZero P.tgt P.allowed stack (pyStrip cn)
    (pyLower (pyStrip ck)) P.targets cex false stZero
  rw [hS] at hex2
  dsimp only at hmh hex2 ⊢
  rw [hmh, hex2]
  unfold anyMatch
  split
  · rfl
  · rcases hCG : walkList P cg
      (stack ++ (if pyStrip cn = "" then [] else [pyStrip cn])) st1 with ⟨cg2, st2⟩
    have ecg := walkList_fst P cg
      (stack ++ (if pyStrip cn = "" then [] else [pyStrip cn])) st1
    rw [hCG] at ecg
    rcases hCC : walkList P cc
      (stack ++ (if pyStrip cn = "" then [] else [pyStrip cn])) st2 with ⟨cc2, st3⟩
    have ecc := walkList_fst P cc
      (stack ++ (if pyStrip cn = "" then [] else [pyStrip cn])) st2
    rw [hCC] at ecc
    rcases hCM : walkList P cm
      (stack ++ (if pyStrip cn = "" then [] else [pyStrip cn])) st3 with ⟨cm2, st4⟩
    have ecm := walkList_fst P cm
      (stack ++ (if pyStrip cn = "" then [] else [pyStrip cn])) st3
    rw [hCM] at ecm
    rcases hCE : walkList P ce
      (stack ++ (if pyStrip cn = "" then [] else [pyStrip cn])) st4 with ⟨ce2, st5⟩
    have ece := walkList_fst P ce
      (stack ++ (if pyStrip cn = "" then [] else [pyStrip cn])) st4
    rw [hCE] at ece
    rcases hW : walkWrap P cw
      (stack ++ (if pyStrip cn = "" then [] else [pyStrip cn])) st5 with ⟨cw2, st6⟩
    have ew := walkWrap_fst P cw
      (stack ++ (if pyStrip cn = "" then [] else [pyStrip cn])) st5
    rw [hW] at ew
    rcases hG : walkList P g
      (stack ++ (if pyStrip cn = "" then [] else [pyStrip cn])) st6 with ⟨g2, st7⟩
    have eg := walkList_fst P g
      (stack ++ (if pyStrip cn = "" then [] else [pyStrip cn])) st6
    rw [hG] at eg
    rcases hC : walkList P c
      (stack ++ (if pyStrip cn = "" then [] else [pyStrip cn])) st7 with ⟨c2, st8⟩
    have ec := walkList_fst P c
      (stack ++ (if pyStrip cn = "" then [] else [pyStrip cn])) st7
    rw [hC] at ec
    rcases hM : walkList P m
      (stack ++ (if pyStrip cn = "" then [] else [pyStrip cn])) st8 with ⟨m2, st9⟩
    have em := walkList_fst P m
      (stack ++ (if pyStrip cn = "" then [] else [pyStrip cn])) st8
    rw [hM] at em
    rcases hE : walkList P e
      (stack ++ (if pyStrip cn = "" then [] else [pyStrip cn])) st9 with ⟨e2, st10⟩
    have ee := walkList_fst P e
      (stack ++ (if pyStrip cn = "" then [] else [pyStrip cn])) st9
    rw [hE] at ee
    dsimp only at ecg ecc ecm ece ew eg ec em ee ⊢
    rw [ecg, ecc, ecm, ece, ew, eg, ec, em, ee]

/-- The changed-node count at a wrapped node. -/
theorem deltaN_wrapped (P : UParams) (n k cn ck : String) (ex cex : Option Int)
    (ni cni : Bool) (g c m e cg cc cm ce : List Ast) (cw : Option Ast)
    (stack : List String) :
    deltaN P (.mk n k ex ni g c m e (some (.mk cn ck cex cni cg cc cm ce cw))) stack =
      (if stepExcOnly P.onlyZero P.tgt P.allowed stack (pyStrip cn)
          (pyLower (pyStrip ck)) P.targets cex ≠ cex then 1 else 0) +
      (if P.lock && anyMatch P stack (pyStrip cn) (pyLower (pyStrip ck)) then 0
       else
        deltaL P cg (stack ++ (if pyStrip cn = "" then [] else [pyStrip cn])) +
        deltaL P cc (stack ++ (if pyStrip cn = "" then [] else [pyStrip cn])) +
        deltaL P cm (stack ++ (if pyStrip cn = "" then [] else [pyStrip cn])) +
        deltaL P ce (stack ++ (if pyStrip cn = "" then [] else [pyStrip cn])) +
        deltaW P cw (stack ++ (if pyStrip cn = "" then [] else [pyStrip cn])) +
        deltaL P g (stack ++ (if pyStrip cn = "" then [] else [pyStrip cn])) +
        deltaL P c (stack ++ (if pyStrip cn = "" then [] else [pyStrip cn])) +
        deltaL P m (stack ++ (if pyStrip cn = "" then [] else [pyStrip cn])) +
        deltaL P e (stack ++ (if pyStrip cn = "" then [] else [pyStrip cn]))) := by
  unfold deltaN
  simp only [walkNode]
  rcases hS : stepTargets P.onlyZero P.tgt P.allowed stack (pyStrip cn)
    (pyLower (pyStrip ck)) P.targets cex false stZero with ⟨ex2, mh, st1⟩
  have hmh := stepTargets_mh P.onlyZero P.tgt P.allowed stack (pyStrip cn)
    (pyLower (pyStrip ck)) P.targets cex false stZero
  rw [hS] at hmh; simp only [Bool.false_or] at hmh
  have hu1 := stepTargets_updated P.onlyZero P.tgt P.allowed stack (pyStrip cn)
    (pyLower (pyStrip ck)) P.targets cex false stZero
  rw [hS] at hu1
  have hz : stZero.updated = 0 := rfl
  dsimp only at hmh hu1 ⊢
  rw [hmh]
  unfold anyMatch
  split
  · dsimp only
    omega
  · rcases hCG : walkList P cg
      (stack ++ (if pyStrip cn = "" then [] else [pyStrip cn])) st1 with ⟨cg2, st2⟩
    have ecg := walkList_upd P cg
      (stack ++ (if pyStrip cn = "" then [] else [pyStrip cn])) st1
    rw [hCG] at ecg
    rcases hCC : walkList P cc
      (stack ++ (if pyStrip cn = "" then [] else [pyStrip cn])) st2 with ⟨cc2, st3⟩
    have ecc := walkList_upd P cc
      (stack ++ (if pyStrip cn = "" then [] else [pyStrip cn])) st2
    rw [hCC] at ecc
    rcases hCM : walkList P cm
      (stack ++ (if pyStrip cn = "" then [] else [pyStrip cn])) st3 with ⟨cm2, st4⟩
    have ecm := walkList_upd P cm
      (stack ++ (if pyStrip cn = "" then [] else [pyStrip cn])) st3
    rw [hCM] at ecm
    rcases hCE : walkList P ce
      (stack ++ (if pyStrip cn = "" then [] else [pyStrip cn])) st4 with ⟨ce2, st5⟩
    have ece := walkList_upd P ce
      (stack ++ (if pyStrip cn = "" then [] else [pyStrip cn])) st4
    rw [hCE] at ece
    rcases hW : walkWrap P cw
      (stack ++ (if pyStrip cn = "" then [] else [pyStrip cn])) st5 with ⟨cw2, st6⟩
    have ew := walkWrap_upd P cw
      (stack ++ (if pyStrip cn = "" then [] else [pyStrip cn])) st5
    rw [hW] at ew
    rcases hG : walkList P g
      (stack ++ (if pyStrip cn = "" then [] else [pyStrip cn])) st6 with ⟨g2, st7⟩
    have eg := walkList_upd P g
      (stack ++ (if pyStrip cn = "" then [] else [pyStrip cn])) st6
    rw [hG] at eg
    rcases hC : walkList P c
      (stack ++ (if pyStrip cn = "" then [] else [pyStrip cn])) st7 with ⟨c2, st8⟩
    have ec := walkList_upd P c
      (stack ++ (if pyStrip cn = "" then [] else [pyStrip cn])) st7
    rw [hC] at ec
    rcases hM : walkList P m
      (stack ++ (if pyStrip cn = "" then [] else [pyStrip cn])) st8 with ⟨m2, st9⟩
    have em := walkList_upd P m
      (stack ++ (if pyStrip cn = "" then [] else [pyStrip cn])) st8
    rw [hM] at em
    rcases hE : walkList P e
      (stack ++ (if pyStrip cn = "" then [] else [pyStrip cn])) st9 with ⟨e2, st10⟩
    have ee := walkList_upd P e
      (stack ++ (if pyStrip cn = "" then [] else [pyStrip cn])) st9
    rw [hE] at ee
    dsimp only at ecg ecc ecm ece ew eg ec em ee ⊢
    omega

/-- The wrapper part of `excsOf`. -/
def excsW : Option Ast → List (Option Int)
  | some a => excsOf a
  | none => []

theorem excsW_some (a : Ast) : excsW (some a) = excsOf a := rfl

theorem excsW_none : excsW none = [] := rfl

theorem excsOf_mk (n k : String) (ex : Option Int) (ni : Bool)
    (g c m e : List Ast) (w : Option Ast) :
    excsOf (.mk n k ex ni g c m e w) =
      ex :: (excsList g ++ excsList c ++ excsList m ++ excsList e ++ excsW w) := by
  rcases w with _ | b <;> simp [excsOf, excsW]

theorem excsList_cons (a : Ast) (l : List Ast) :
    excsList (a :: l) = excsOf a ++ excsList l := by
  simp [excsList]

theorem excsList_nil : excsList [] = [] := rfl

theorem append_eq_append_iff_of_len {α : Type} (a b c d : List α)
    (h : a.length = c.length) : a ++ b = c ++ d ↔ a = c ∧ b = d := by
  constructor
  · intro hh
    exact List.append_inj hh h
  · rintro ⟨rfl, rfl⟩
    rfl

/-- The walk preserves the shape of the protection-value sequence. -/
theorem walk_len (P : UParams) :
    (∀ a, ∀ stack, (excsOf (walkFN P a stack)).length = (excsOf a).length) ∧
    (∀ l, ∀ stack, (excsList (walkFL P l stack)).length = (excsList l).length) := by
  refine walkInd _ _ ?_ ?_ ?_
  · intro stack
    rfl
  · intro a l ha hl stack
    rw [walkFL_cons, excsList_cons, excsList_cons]
    simp [ha stack, hl stack]
  · intro n k ex ni g c m e w hg hc hm he hw stack
    rcases w with _ | ⟨cn, ck, cex, cni, cg, cc, cm, ce, cw⟩
    · rw [walkFN_unwrapped]
      split
      · rfl
      · rw [excsOf_mk, excsOf_mk]
        simp [hg, hc, hm, he]
    · obtain ⟨hcg, hcc, hcm, hce, hcwN⟩ := hw cn ck cex cni cg cc cm ce cw rfl
      rw [walkFN_wrapped]
      split
      · simp [excsOf_mk, excsW_some]
      · have hwlen : (excsW (walkFW P cw
            (stack ++ (if pyStrip cn = "" then [] else [pyStrip cn])))).length =
            (excsW cw).length := by
          rcases cw with _ | inner
          · rw [walkFW_none]
          · rw [walkFW_some]
            exact hcwN inner rfl _
        simp [excsOf_mk, hwlen, hg, hc, hm, he, hcg, hcc, hcm, hce, excsW_some]

theorem applyOneExc_none_gate (alwaysUnused : Unit) :
    applyOneExc true 1 none = none := by
  simp [applyOneExc]

theorem stepExcOnly_none (alw : Option (List String)) (stack : List String)
    (nm kd : String) (ts : List Target) :
    stepExcOnly true 1 alw stack nm kd ts none = none :=
  stepExcOnly_of_fix true 1 alw stack nm kd ts none (applyOneExc_none_gate ())

/-- Explicit-zero gating, tree-wide: with the automated-source flags
(`only_when_explicit_zero` and target `1`) a node whose protection is
absent stays absent at every position of the protection sequence. -/
theorem walk_unset (P : UParams) (hz : P.onlyZero = true) (ht : P.tgt = 1) :
    (∀ a, ∀ stack, List.Forall₂ (fun x y : Option Int => x = none → y = none)
      (excsOf a) (excsOf (walkFN P a stack))) ∧
    (∀ l, ∀ stack, List.Forall₂ (fun x y : Option Int => x = none → y = none)
      (excsList l) (excsList (walkFL P l stack))) := by
  have hrefl : ∀ ll : List (Option Int),
      List.Forall₂ (fun x y : Option Int => x = none → y = none) ll ll :=
    fun ll => List.forall₂_same.2 (fun x _ => id)
  have hhead : ∀ (stack : List String) (nm kd : String) (ex : Option Int),
      ex = none →
        stepExcOnly P.onlyZero P.tgt P.allowed stack nm kd P.targets ex = none := by
    intro stack nm kd ex hex
    subst hex
    rw [hz, ht]
    exact stepExcOnly_none P.allowed stack nm kd P.targets
  refine walkInd _ _ ?_ ?_ ?_
  · intro stack
    exact List.Forall₂.nil
  · intro a l ha hl stack
    rw [walkFL_cons, excsList_cons, excsList_cons]
    exact List.rel_append (ha stack) (hl stack)
  · intro n k ex ni g c m e w hg hc hm he hw stack
    rcases w with _ | ⟨cn, ck, cex, cni, cg, cc, cm, ce, cw⟩
    · rw [walkFN_unwrapped]
      split
      · rw [excsOf_mk, excsOf_mk]
        exact List.Forall₂.cons (hhead stack _ _ ex) (hrefl _)
      · rw [excsOf_mk, excsOf_mk]
        refine List.Forall₂.cons (hhead stack _ _ ex) ?_
        exact List.rel_append (List.rel_append (List.rel_append
          (List.rel_append (hg _) (hc _)) (hm _)) (he _)) (hrefl _)
    · obtain ⟨hcg, hcc, hcm, hce, hcwN⟩ := hw cn ck cex cni cg cc cm ce cw rfl
      rw [walkFN_wrapped]
      have hwpart : List.Forall₂ (fun x y : Option Int => x = none → y = none)
          (excsW cw)
          (excsW (walkFW P cw
            (stack ++ (if pyStrip cn = "" then [] else [pyStrip cn])))) := by
        rcases cw with _ | inner
        · rw [walkFW_none]
          exact List.Forall₂.nil
        · rw [walkFW_some, excsW_some, excsW_some]
          exact hcwN inner rfl _
      split
      · rw [excsOf_mk, excsOf_mk, excsW_some, excsW_some, excsOf_mk, excsOf_mk]
        refine List.Forall₂.cons (fun hx => hx) ?_
        refine List.rel_append (hrefl _) ?_
        exact List.Forall₂.cons (hhead stack _ _ cex) (hrefl _)
      · rw [excsOf_mk, excsOf_mk, excsW_some, excsW_some, excsOf_mk, excsOf_mk]
        refine List.Forall₂.cons (fun hx => hx) ?_
        refine List.rel_append (List.rel_append (List.rel_append
          (List.rel_append (hg _) (hc _)) (hm _)) (he _)) ?_
        refine List.Forall₂.cons (hhead stack _ _ cex) ?_
        exact List.rel_append (List.rel_append (List.rel_append
          (List.rel_append (hcg _) (hcc _)) (hcm _)) (hce _)) hwpart

theorem app5_iff (a1 a2 a3 a4 a5 b1 b2 b3 b4 b5 : List (Option Int))
    (h1 : a1.length = b1.length) (h2 : a2.length = b2.length)
    (h3 : a3.length = b3.length) (h4 : a4.length = b4.length) :
    a1 ++ a2 ++ a3 ++ a4 ++ a5 = b1 ++ b2 ++ b3 ++ b4 ++ b5 ↔
      (a1 = b1 ∧ a2 = b2 ∧ a3 = b3 ∧ a4 = b4 ∧ a5 = b5) := by
  rw [append_eq_append_iff_of_len (a1 ++ a2 ++ a3 ++ a4) a5 (b1 ++ b2 ++ b3 ++ b4) b5
      (by simp [h1, h2, h3, h4]),
    append_eq_append_iff_of_len (a1 ++ a2 ++ a3) a4 (b1 ++ b2 ++ b3) b4
      (by simp [h1, h2, h3]),
    append_eq_append_iff_of_len (a1 ++ a2) a3 (b1 ++ b2) b3 (by simp [h1, h2]),
    append_eq_append_iff_of_len a1 a2 b1 b2 h1]
  tauto

/-- The changed-node count is zero exactly when the walk left every
protection value unchanged. -/
theorem walk_delta_iff (P : UParams) :
    (∀ a, ∀ stack, deltaN P a stack = 0 ↔ excsOf (walkFN P a stack) = excsOf a) ∧
    (∀ l, ∀ stack, deltaL P l stack = 0 ↔ excsList (walkFL P l stack) = excsList l) := by
  refine walkInd _ _ ?_ ?_ ?_
  · intro stack
    simp [deltaL_nil, walkFL_nil]
  · intro a l ha hl stack
    rw [deltaL_cons, walkFL_cons, excsList_cons, excsList_cons,
      append_eq_append_iff_of_len _ _ _ _ ((walk_len P).1 a stack),
      ← ha stack, ← hl stack]
    omega
  · intro n k ex ni g c m e w hg hc hm he hw stack
    rcases w with _ | ⟨cn, ck, cex, cni, cg, cc, cm, ce, cw⟩
    · rw [deltaN_unwrapped, walkFN_unwrapped]
      by_cases hLM : (P.lock && anyMatch P stack (pyStrip n) (pyLower (pyStrip k))) = true
      case pos =>
        simp only [if_pos hLM]
        rw [excsOf_mk, excsOf_mk]
        simp only [List.cons.injEq]
        constructor
        · intro h0
          refine ⟨?_, by trivial⟩
          by_contra hne
          simp [hne] at h0
        · rintro ⟨hh, -⟩
          simp [hh]
      case neg =>
        simp only [if_neg hLM]
        rw [excsOf_mk, excsOf_mk]
        simp only [List.cons.injEq]
        rw [app5_iff _ _ _ _ _ _ _ _ _ _ ((walk_len P).2 g _) ((walk_len P).2 c _)
          ((walk_len P).2 m _) ((walk_len P).2 e _),
          ← hg _, ← hc _, ← hm _, ← he _]
        constructor
        · intro h0
          have hd0 : (if stepExcOnly P.onlyZero P.tgt P.allowed stack (pyStrip n)
              (pyLower (pyStrip k)) P.targets ex ≠ ex then 1 else 0) = 0 := by omega
          refine ⟨?_, by omega, by omega, by omega, by omega, by trivial⟩
          by_contra hne
          simp [hne] at hd0
        · rintro ⟨hh, h1, h2, h3, h4, -⟩
          simp [hh, h1, h2, h3, h4]
    · obtain ⟨hcg, hcc, hcm, hce, hcwN⟩ := hw cn ck cex cni cg cc cm ce cw rfl
      have hwlen : (excsW (walkFW P cw
          (stack ++ (if pyStrip cn = "" then [] else [pyStrip cn])))).length =
          (excsW cw).length := by
        rcases cw with _ | inner
        · rw [walkFW_none]
        · rw [walkFW_some, excsW_some, excsW_some]
          exact (walk_len P).1 inner _
      have hwiff : deltaW P cw
          (stack ++ (if pyStrip cn = "" then [] else [pyStrip cn])) = 0 ↔
          excsW (walkFW P cw
            (stack ++ (if pyStrip cn = "" then [] else [pyStrip cn]))) = excsW cw := by
        rcases cw with _ | inner
        · rw [walkFW_none, deltaW_none]
          simp
        · rw [walkFW_some, deltaW_some, excsW_some, excsW_some]
          exact hcwN inner rfl _
      rw [deltaN_wrapped, walkFN_wrapped]
      by_cases hLM : (P.lock && anyMatch P stack (pyStrip cn) (pyLower (pyStrip ck))) = true
      case pos =>
        simp only [if_pos hLM]
        rw [excsOf_mk, excsOf_mk, excsW_some, excsW_some, excsOf_mk, excsOf_mk]
        simp only [List.cons.injEq]
        rw [app5_iff _ _ _ _ _ _ _ _ _ _ rfl rfl rfl rfl]
        simp only [List.cons.injEq]
        constructor
        · intro h0
          refine ⟨by trivial, by trivial, by trivial, by trivial, by trivial,
            ⟨?_, by trivial⟩⟩
          by_contra hne
          simp [hne] at h0
        · rintro ⟨-, -, -, -, -, hh, -⟩
          simp [hh]
      case neg =>
        simp only [if_neg hLM]
        rw [excsOf_mk, excsOf_mk, excsW_some, excsW_some, excsOf_mk, excsOf_mk]
        simp only [List.cons.injEq]
        rw [app5_iff _ _ _ _ _ _ _ _ _ _ ((walk_len P).2 g _) ((walk_len P).2 c _)
          ((walk_len P).2 m _) ((walk_len P).2 e _)]
        simp only [List.cons.injEq]
        rw [app5_iff _ _ _ _ _ _ _ _ _ _ ((walk_len P).2 cg _) ((walk_len P).2 cc _)
          ((walk_len P).2 cm _) ((walk_len P).2 ce _),
          ← hg _, ← hc _, ← hm _, ← he _, ← hcg _, ← hcc _, ← hcm _, ← hce _, ← hwiff]
        constructor
        · intro h0
          have hd0 : (if stepExcOnly P.onlyZero P.tgt P.allowed stack (pyStrip cn)
              (pyLower (pyStrip ck)) P.targets cex ≠ cex then 1 else 0) = 0 := by omega
          refine ⟨by trivial, by omega, by omega, by omega, by omega, ⟨?_, by omega,
            by omega, by omega, by omega, by omega⟩⟩
          by_contra hne
          simp [hne] at hd0
        · rintro ⟨-, h1, h2, h3, h4, hh, h5, h6, h7, h8, h9⟩
          simp [hh, h1, h2, h3, h4, h5, h6, h7, h8, h9]

/-- Idempotence: the walked tree is a fixed point of the walk, and a
second pass changes zero nodes. -/
theorem walk_idem (P : UParams) :
    (∀ a, ∀ stack, walkFN P (walkFN P a stack) stack = walkFN P a stack ∧
      deltaN P (walkFN P a stack) stack = 0) ∧
    (∀ l, ∀ stack, walkFL P (walkFL P l stack) stack = walkFL P l stack ∧
      deltaL P (walkFL P l stack) stack = 0) := by
  refine walkInd _ _ ?_ ?_ ?_
  · intro stack
    rw [walkFL_nil]
    exact ⟨walkFL_nil P stack, deltaL_nil P stack⟩
  · intro a l ha hl stack
    rw [walkFL_cons]
    constructor
    · rw [walkFL_cons, (ha stack).1, (hl stack).1]
    · rw [deltaL_cons, (ha stack).2, (hl stack).2]
  · intro n k ex ni g c m e w hg hc hm he hw stack
    rcases w with _ | ⟨cn, ck, cex, cni, cg, cc, cm, ce, cw⟩
    · rw [walkFN_unwrapped]
      by_cases hLM : (P.lock && anyMatch P stack (pyStrip n) (pyLower (pyStrip k))) = true
      case pos =>
        simp only [if_pos hLM]
        constructor
        · rw [walkFN_unwrapped]
          simp only [if_pos hLM]
          rw [stepExcOnly_idem]
          simp [Bool.or_assoc]
        · rw [deltaN_unwrapped]
          simp only [if_pos hLM]
          rw [stepExcOnly_idem]
          simp
      case neg =>
        simp only [if_neg hLM]
        constructor
        · rw [walkFN_unwrapped]
          simp only [if_neg hLM]
          rw [stepExcOnly_idem, (hg _).1, (hc _).1, (hm _).1, (he _).1]
          simp [Bool.or_assoc]
        · rw [deltaN_unwrapped]
          simp only [if_neg hLM]
          rw [stepExcOnly_idem, (hg _).2, (hc _).2, (hm _).2, (he _).2]
          simp
    · obtain ⟨hcg, hcc, hcm, hce, hcwN⟩ := hw cn ck cex cni cg cc cm ce cw rfl
      have hwfix : walkFW P (walkFW P cw
          (stack ++ (if pyStrip cn = "" then [] else [pyStrip cn])))
          (stack ++ (if pyStrip cn = "" then [] else [pyStrip cn])) =
          walkFW P cw (stack ++ (if pyStrip cn = "" then [] else [pyStrip cn])) ∧
          deltaW P (walkFW P cw
            (stack ++ (if pyStrip cn = "" then [] else [pyStrip cn])))
            (stack ++ (if pyStrip cn = "" then [] else [pyStrip cn])) = 0 := by
        rcases cw with _ | inner
        · rw [walkFW_none]
          exact ⟨walkFW_none P _, deltaW_none P _⟩
        · rw [walkFW_some, walkFW_some, deltaW_some]
          exact ⟨congrArg some (hcwN inner rfl _).1, (hcwN inner rfl _).2⟩
      rw [walkFN_wrapped]
      by_cases hLM : (P.lock && anyMatch P stack (pyStrip cn) (pyLower (pyStrip ck))) = true
      case pos =>
        simp only [if_pos hLM]
        constructor
        · rw [walkFN_wrapped]
          simp only [if_pos hLM]
          rw [stepExcOnly_idem]
          simp [Bool.or_assoc]
        · rw [deltaN_wrapped]
          simp only [if_pos hLM]
          rw [stepExcOnly_idem]
          simp
      case neg =>
        simp only [if_neg hLM]
        constructor
        · rw [walkFN_wrapped]
          simp only [if_neg hLM]
          rw [stepExcOnly_idem, (hg _).1, (hc _).1, (hm _).1, (he _).1,
            (hcg _).1, (hcc _).1, (hcm _).1, (hce _).1, hwfix.1]
          simp [Bool.or_assoc]
        · rw [deltaN_wrapped]
          simp only [if_neg hLM]
          rw [stepExcOnly_idem, (hg _).2, (hc _).2, (hm _).2, (he _).2,
            (hcg _).2, (hcc _).2, (hcm _).2, (hce _).2, hwfix.2]
          simp

def runParams (ids : List String) (isExc : Int) (ak : Option (List String))
    (lock oz : Bool) : UParams :=
  ⟨parsedTargets ids, normAllowedKinds ak, isExc, lock, oz⟩

theorem updateAst_run (ids : List String) (isExc : Int) (ak : Option (List String))
    (lock oz : Bool) (astList : List Ast) :
    (updateAstNodeExceptions ids isExc ak lock oz astList).tree =
      walkFL (runParams ids isExc ak lock oz) astList [] ∧
    (updateAstNodeExceptions ids isExc ak lock oz astList).changedNodes =
      deltaL (runParams ids isExc ak lock oz) astList [] ∧
    (updateAstNodeExceptions ids isExc ak lock oz astList).writesBack =
      decide (0 < deltaL (runParams ids isExc ak lock oz) astList []) := by
  unfold updateAstNodeExceptions runParams
  dsimp only
  rcases hW : walkList ⟨parsedTargets ids, normAllowedKinds ak, isExc, lock, oz⟩
    astList [] ⟨0, 0, []⟩ with ⟨t2, st2⟩
  have h1 := walkList_fst ⟨parsedTargets ids, normAllowedKinds ak, isExc, lock, oz⟩
    astList [] ⟨0, 0, []⟩
  have h2 := walkList_upd ⟨parsedTargets ids, normAllowedKinds ak, isExc, lock, oz⟩
    astList [] ⟨0, 0, []⟩
  rw [hW] at h1 h2
  dsimp only at h1 h2 ⊢
  have h3 : stZero.updated = 0 := rfl
  refine ⟨h1, by omega, ?_⟩
  have : st2.updated = deltaL ⟨parsedTargets ids, normAllowedKinds ak, isExc, lock, oz⟩
      astList [] := by omega
  rw [this]

theorem walkFL_get (P : UParams) (l : List Ast) (stack : List String) (i : Nat) :
    (walkFL P l stack)[i]? = (l[i]?).map (fun a => walkFN P a stack) := by
  induction l generalizing i with
  | nil => simp [walkFL_nil]
  | cons a rest ih =>
    rw [walkFL_cons]
    cases i with
    | zero => simp
    | succ j => simpa using ih j

theorem applyOneExc_zero_to_one : applyOneExc true 1 (some 0) = some 1 := by
  simp [applyOneExc]

theorem stepExcOnly_zero_to_one (alw : Option (List String)) (stack : List String)
    (nm kd : String) (ts : List Target)
    (h : ts.any (fun t => specMatches alw t stack nm kd) = true) :
    stepExcOnly true 1 alw stack nm kd ts (some 0) = some 1 := by
  induction ts with
  | nil => simp at h
  | cons t rest ih =>
    rw [List.any_cons] at h
    unfold stepExcOnly
    split
    · rw [applyOneExc_zero_to_one]
      exact stepExcOnly_some_tgt true 1 alw stack nm kd rest
    · rename_i hm
      rcases Bool.or_eq_true_iff.1 h with h1 | h2
      · exact absurd h1 hm
      · exact ih h2

/-- A run with no (parsed) targets changes nothing at all. -/
theorem walk_no_targets (P : UParams) (hT : P.targets = []) :
    (∀ a, ∀ stack, walkFN P a stack = a ∧ deltaN P a stack = 0) ∧
    (∀ l, ∀ stack, walkFL P l stack = l ∧ deltaL P l stack = 0) := by
  have hAny : ∀ stack nm kd, anyMatch P stack nm kd = false := by
    intro stack nm kd
    rw [anyMatch, hT]
    rfl
  have hStep : ∀ stack nm kd exc,
      stepExcOnly P.onlyZero P.tgt P.allowed stack nm kd P.targets exc = exc := by
    intro stack nm kd exc
    rw [hT]
    rfl
  refine walkInd _ _ ?_ ?_ ?_
  · intro stack
    exact ⟨walkFL_nil P stack, deltaL_nil P stack⟩
  · intro a l ha hl stack
    rw [walkFL_cons, deltaL_cons, (ha stack).1, (hl stack).1, (ha stack).2, (hl stack).2]
    exact ⟨rfl, rfl⟩
  · intro n k ex ni g c m e w hg hc hm he hw stack
    rcases w with _ | ⟨cn, ck, cex, cni, cg, cc, cm, ce, cw⟩
    · rw [walkFN_unwrapped, deltaN_unwrapped]
      simp only [hAny, Bool.and_false, Bool.false_eq_true, if_false, hStep]
      rw [(hg _).1, (hc _).1, (hm _).1, (he _).1, (hg _).2, (hc _).2, (hm _).2, (he _).2]
      simp
    · obtain ⟨hcg, hcc, hcm, hce, hcwN⟩ := hw cn ck cex cni cg cc cm ce cw rfl
      have hwid : walkFW P cw
          (stack ++ (if pyStrip cn = "" then [] else [pyStrip cn])) = cw ∧
          deltaW P cw (stack ++ (if pyStrip cn = "" then [] else [pyStrip cn])) = 0 := by
        rcases cw with _ | inner
        · exact ⟨walkFW_none P _, deltaW_none P _⟩
        · rw [walkFW_some, deltaW_some, (hcwN inner rfl _).1]
          exact ⟨rfl, (hcwN inner rfl _).2⟩
      rw [walkFN_wrapped, deltaN_wrapped]
      simp only [hAny, Bool.and_false, Bool.false_eq_true, if_false, hStep]
      rw [(hg _).1, (hc _).1, (hm _).1, (he _).1, (hcg _).1, (hcc _).1, (hcm _).1,
        (hce _).1, hwid.1,
        (hg _).2, (hc _).2, (hm _).2, (he _).2, (hcg _).2, (hcc _).2, (hcm _).2,
        (hce _).2, hwid.2]
      simp

/-- The parent-path check is exactly the suffix relation on the ancestor
stack. -/
theorem parentOk_iff (pp stack : List String) :
    parentOk pp stack = true ↔ pp <:+ stack := by
  unfold parentOk
  by_cases hpp : pp.isEmpty
  · rw [if_pos hpp]
    rw [List.isEmpty_iff] at hpp
    subst hpp
    simp [List.nil_suffix]
  · rw [if_neg hpp]
    by_cases hlen : pp.length > stack.length
    · rw [if_pos hlen]
      simp only [Bool.false_eq_true, false_iff]
      intro hsuf
      have := hsuf.length_le
      omega
    · rw [if_neg hlen]
      rw [beq_iff_eq, List.suffix_iff_eq_drop]
      exact ⟨fun h => h.symm, fun h => h.symm⟩

/-- The matching of one parsed rule spec at a node, characterized: the
parent path must be a suffix of the ancestor stack, the leaf must be empty
or literally equal to the node name, and a present kind hint or non-empty
kind allow-list must admit the node kind. -/
theorem specMatches_iff (alw : Option (List String)) (t : Target)
    (stack : List String) (nm kd : String) :
    specMatches alw t stack nm kd = true ↔
      (t.parentPath <:+ stack ∧ (t.leaf = "" ∨ t.leaf = nm) ∧
       (∀ l, alw = some l → l ≠ [] → kd ∈ l) ∧
       (∀ h, t.kindHint = some h → h = kd)) := by
  unfold specMatches
  simp only [Bool.and_eq_true, Bool.or_eq_true, beq_iff_eq, parentOk_iff]
  constructor
  · rintro ⟨⟨⟨h1, h2⟩, h3⟩, h4⟩
    refine ⟨h1, h2, ?_, ?_⟩
    · intro l hl hne
      subst hl
      unfold kindAllowed at h3
      simp only [Bool.or_eq_true] at h3
      rcases h3 with h | h
      · rw [List.isEmpty_iff] at h
        exact absurd h hne
      · simpa using h
    · intro hk hkh
      unfold hintOk at h4
      rw [hkh] at h4
      simpa using h4
  · rintro ⟨h1, h2, h3, h4⟩
    refine ⟨⟨⟨h1, h2⟩, ?_⟩, ?_⟩
    · unfold kindAllowed
      rcases alw with _ | l
      · rfl
      · rcases Decidable.eq_or_ne l [] with hl | hl
        · subst hl
          rfl
        · have hmem := h3 l rfl hl
          simp [hmem]
    · unfold hintOk
      rcases hh : t.kindHint with _ | hk
      · rfl
      · have := h4 hk hh
        simp [this]

theorem configIncludeNames_mem (includeItems exNames : List String) (x : String) :
    x ∈ configIncludeNames includeItems exNames ↔
      ∃ item ∈ includeItems, pyStrip item ≠ "" ∧
        ((isWildcardItem (pyStrip item) = false ∧ pyStrip item = x) ∨
         (isWildcardItem (pyStrip item) = true ∧ x ∈ exNames ∧
           fnmatchcase x (pyStrip item) = true)) := by
  induction includeItems with
  | nil => simp [configIncludeNames]
  | cons item rest ih =>
    unfold configIncludeNames
    rw [List.mem_append, ih, List.exists_mem_cons_iff]
    have hhead : (x ∈ (let it := pyStrip item
        if it = "" then []
        else if isWildcardItem it then exNames.filter (fun ex => fnmatchcase ex it)
        else [it])) ↔
        (pyStrip item ≠ "" ∧
          ((isWildcardItem (pyStrip item) = false ∧ pyStrip item = x) ∨
           (isWildcardItem (pyStrip item) = true ∧ x ∈ exNames ∧
             fnmatchcase x (pyStrip item) = true))) := by
      by_cases h0 : pyStrip item = ""
      · simp [h0]
      · by_cases hw : isWildcardItem (pyStrip item) = true
        · simp [h0, hw, List.mem_filter]
        · simp only [List.mem_singleton]
          simp [h0, hw]
          exact comm
    rw [hhead]

/-- The computed conflict set, characterized by the specification's
formula. -/
theorem conflictSet_mem (includeItems exNames : List String) (x : String) :
    x ∈ conflictSet includeItems exNames ↔ conflictSpecMem includeItems exNames x := by
  unfold conflictSet conflictSpecMem
  rw [List.mem_filter, configIncludeNames_mem]
  have hc : exNames.contains x = true ↔ x ∈ exNames := by simp
  rw [hc]
  constructor
  · rintro ⟨⟨item, hitem, hne, hcase⟩, hmem⟩
    exact ⟨hmem, item, hitem, hne, by tauto⟩
  · rintro ⟨hmem, item, hitem, hne, hcase⟩
    exact ⟨⟨item, hitem, hne, by tauto⟩, hmem⟩

/-! ## The claims. -/

/-- Concrete nodes used by the claim witnesses and counterexamples. -/
def innerZero : Ast := .mk "inner" "function" (some 0) false [] [] [] [] none

def innerOne : Ast := .mk "inner" "function" (some 1) true [] [] [] [] none

/-- C1. Explicit-zero gating: in a run with the automated-analyzer flags
(`only_when_explicit_zero` set, target value `1`), (a) every node whose
`isException` key is absent keeps it absent (position-wise over the
document's protection sequence), and (b) every top-level unwrapped node
with explicit `isException = 0` that is matched by some parsed rule ends
the run with explicit `isException = 1`. -/
theorem claim_C1_explicit_zero_gating (ids : List String) (ak : Option (List String))
    (lock : Bool) (ts : List Ast) :
    List.Forall₂ (fun x y : Option Int => x = none → y = none)
      (excsList ts)
      (excsList (updateAstNodeExceptions ids 1 ak lock true ts).tree) ∧
    (∀ (i : Nat) (n k : String) (ni : Bool) (g c m e : List Ast),
      ts[i]? = some (.mk n k (some 0) ni g c m e none) →
      anyMatch (runParams ids 1 ak lock true) [] (pyStrip n) (pyLower (pyStrip k)) = true →
      ∃ ni' g' c' m' e',
        (updateAstNodeExceptions ids 1 ak lock true ts).tree[i]? =
          some (.mk n k (some 1) ni' g' c' m' e' none)) := by
  have hrun := updateAst_run ids 1 ak lock true ts
  have hz : (runParams ids 1 ak lock true).onlyZero = true := rfl
  have ht : (runParams ids 1 ak lock true).tgt = 1 := rfl
  constructor
  · rw [hrun.1]
    exact (walk_unset (runParams ids 1 ak lock true) hz ht).2 ts []
  · intro i n k ni g c m e hi hmatch
    rw [hrun.1, walkFL_get, hi]
    have hstep : stepExcOnly (runParams ids 1 ak lock true).onlyZero
        (runParams ids 1 ak lock true).tgt (runParams ids 1 ak lock true).allowed []
        (pyStrip n) (pyLower (pyStrip k)) (runParams ids 1 ak lock true).targets
        (some 0) = some 1 := by
      rw [hz, ht]
      refine stepExcOnly_zero_to_one _ _ _ _ _ ?_
      exact hmatch
    simp only [Option.map_some']
    rw [walkFN_unwrapped]
    split
    · exact ⟨_, _, _, _, _, by rw [hstep]⟩
    · exact ⟨_, _, _, _, _, by rw [hstep]⟩

/-- Witness for C1 at a concrete input: an unset node stays unset and an
explicitly-false matched node becomes explicitly true. -/
theorem claim_C1_witness :
    ∃ ni' g' c' m' e',
      (updateAstNodeExceptions ["f"] 1 none true true
        [.mk "g" "class" none false [] [] [] [] none,
         .mk "f" "function" (some 0) false [] [] [] [] none]).tree[1]? =
        some (.mk "f" "function" (some 1) ni' g' c' m' e' none) :=
  (claim_C1_explicit_zero_gating ["f"] none true
    [.mk "g" "class" none false [] [] [] [] none,
     .mk "f" "function" (some 0) false [] [] [] [] none]).2
    1 "f" "function" false [] [] [] [] rfl (by decide)

/-- C2. Cascade prevention: when `lock_children` is set and a node is
matched, the walked node keeps all of its descent paths untouched — the
canonical node's four container lists and its nested wrapper, and the
wrapper's sibling containers, are returned exactly as they were, so no
descendant's protection can change on account of the ancestor's match;
sibling subtrees are walked element-by-element regardless. -/
theorem claim_C2_no_cascade :
    (∀ P a stack, P.lock = true → nodeMatchesAt P stack a = true →
      ((walkFN P a stack).curOf.gOf = a.curOf.gOf ∧
       (walkFN P a stack).curOf.chOf = a.curOf.chOf ∧
       (walkFN P a stack).curOf.mOf = a.curOf.mOf ∧
       (walkFN P a stack).curOf.eOf = a.curOf.eOf ∧
       (walkFN P a stack).curOf.wrapOf = a.curOf.wrapOf ∧
       (walkFN P a stack).gOf = a.gOf ∧ (walkFN P a stack).chOf = a.chOf ∧
       (walkFN P a stack).mOf = a.mOf ∧ (walkFN P a stack).eOf = a.eOf)) ∧
    ((updateAstNodeExceptions ["Outer", "inner"] 1 none true false
      [.mk "Outer" "class" (some 0) false [] [innerZero] [] [] none,
       .mk "Other" "class" none false [] [innerZero] [] [] none]).tree =
      [.mk "Outer" "class" (some 1) true [] [innerZero] [] [] none,
       .mk "Other" "class" none false [] [innerOne] [] [] none] ∧
     (updateAstNodeExceptions ["Outer", "inner"] 1 none true false
      [.mk "Outer" "class" (some 0) false [] [innerZero] [] [] none,
       .mk "Other" "class" none false [] [innerZero] [] [] none]).changedNodes = 2) := by
  constructor
  · intro P a stack hlock hmatch
    rcases a with ⟨n, k, ex, ni, g, c, m, e, _ | ⟨cn, ck, cex, cni, cg, cc, cm, ce, cw⟩⟩
    · have hc : anyMatch P stack (pyStrip n) (pyLower (pyStrip k)) = true := hmatch
      rw [walkFN_unwrapped, if_pos (by rw [hlock, hc]; rfl)]
      simp [Ast.curOf, Ast.wrapOf, Ast.gOf, Ast.chOf, Ast.mOf, Ast.eOf]
    · have hc : anyMatch P stack (pyStrip cn) (pyLower (pyStrip ck)) = true := hmatch
      rw [walkFN_wrapped, if_pos (by rw [hlock, hc]; rfl)]
      simp [Ast.curOf, Ast.wrapOf, Ast.gOf, Ast.chOf, Ast.mOf, Ast.eOf, Option.getD]
  · exact ⟨by rfl, by decide⟩

/-- Witness for C2: the parent `Outer` matches (rules `Outer`, `inner`),
cascade prevention is on, and the theorem applies; the matched node's
child list — containing a node whose name `inner` equals another rule's
leaf — is returned untouched. -/
theorem claim_C2_witness :
    (walkFN (runParams ["Outer", "inner"] 1 none true false)
        (.mk "Outer" "class" (some 0) false [] [innerZero] [] [] none) []).curOf.gOf =
      (Ast.mk "Outer" "class" (some 0) false [] [innerZero] [] [] none).curOf.gOf ∧
    (walkFN (runParams ["Outer", "inner"] 1 none true false)
        (.mk "Outer" "class" (some 0) false [] [innerZero] [] [] none) []).curOf.chOf =
      (Ast.mk "Outer" "class" (some 0) false [] [innerZero] [] [] none).curOf.chOf ∧
    (walkFN (runParams ["Outer", "inner"] 1 none true false)
        (.mk "Outer" "class" (some 0) false [] [innerZero] [] [] none) []).curOf.mOf =
      (Ast.mk "Outer" "class" (some 0) false [] [innerZero] [] [] none).curOf.mOf ∧
    (walkFN (runParams ["Outer", "inner"] 1 none true false)
        (.mk "Outer" "class" (some 0) false [] [innerZero] [] [] none) []).curOf.eOf =
      (Ast.mk "Outer" "class" (some 0) false [] [innerZero] [] [] none).curOf.eOf ∧
    (walkFN (runParams ["Outer", "inner"] 1 none true false)
        (.mk "Outer" "class" (some 0) false [] [innerZero] [] [] none) []).curOf.wrapOf =
      (Ast.mk "Outer" "class" (some 0) false [] [innerZero] [] [] none).curOf.wrapOf ∧
    (walkFN (runParams ["Outer", "inner"] 1 none true false)
        (.mk "Outer" "class" (some 0) false [] [innerZero] [] [] none) []).gOf =
      (Ast.mk "Outer" "class" (some 0) false [] [innerZero] [] [] none).gOf ∧
    (walkFN (runParams ["Outer", "inner"] 1 none true false)
        (.mk "Outer" "class" (some 0) false [] [innerZero] [] [] none) []).chOf =
      (Ast.mk "Outer" "class" (some 0) false [] [innerZero] [] [] none).chOf ∧
    (walkFN (runParams ["Outer", "inner"] 1 none true false)
        (.mk "Outer" "class" (some 0) false [] [innerZero] [] [] none) []).mOf =
      (Ast.mk "Outer" "class" (some 0) false [] [innerZero] [] [] none).mOf ∧
    (walkFN (runParams ["Outer", "inner"] 1 none true false)
        (.mk "Outer" "class" (some 0) false [] [innerZero] [] [] none) []).eOf =
      (Ast.mk "Outer" "class" (some 0) false [] [innerZero] [] [] none).eOf :=
  claim_C2_no_cascade.1 (runParams ["Outer", "inner"] 1 none true false)
    (.mk "Outer" "class" (some 0) false [] [innerZero] [] [] none) [] rfl (by decide)

/-- C3 counterexample: under the ask policy an explicit decline answer
(`n`) does **not** abort the run — the code prints a cancellation message
and continues. -/
theorem claim_C3_counterexample :
    isAborted (resolveIncludeConflict "ask" (PromptAnswer.ok "n")) = false ∧
    resolveIncludeConflict "ask" (PromptAnswer.ok "n") =
      ConflictOutcome.declinedContinue := by
  exact ⟨by decide, by decide⟩

/-- C3 (amended). Under the ask policy: end-of-input and interruption
abort with exit status 1; an answer other than `y`/`yes` (stripped,
lowered) declines and the run continues with no tree action; `y`/`yes`
applies the removal. -/
theorem claim_C3_ask_policy :
    resolveIncludeConflict "ask" PromptAnswer.endOfInput = ConflictOutcome.aborted 1 ∧
    resolveIncludeConflict "ask" PromptAnswer.interrupted = ConflictOutcome.aborted 1 ∧
    (∀ s, pyLower (pyStrip s) ≠ "y" → pyLower (pyStrip s) ≠ "yes" →
      resolveIncludeConflict "ask" (PromptAnswer.ok s) =
        ConflictOutcome.declinedContinue) ∧
    (∀ s, pyLower (pyStrip s) = "y" ∨ pyLower (pyStrip s) = "yes" →
      resolveIncludeConflict "ask" (PromptAnswer.ok s) =
        ConflictOutcome.appliedRemoval) := by
  refine ⟨rfl, rfl, ?_, ?_⟩
  · intro s h1 h2
    have hb : (pyLower (pyStrip s) == "y" || pyLower (pyStrip s) == "yes") = false := by
      simp [h1, h2]
    simp [resolveIncludeConflict, hb]
  · intro s h
    have hb : (pyLower (pyStrip s) == "y" || pyLower (pyStrip s) == "yes") = true := by
      rcases h with h | h <;> simp [h]
    simp [resolveIncludeConflict, hb]

/-- Witness for C3 (amended), applied at concrete answers. -/
theorem claim_C3_witness :
    resolveIncludeConflict "ask" (PromptAnswer.ok " No ") =
      ConflictOutcome.declinedContinue ∧
    resolveIncludeConflict "ask" (PromptAnswer.ok " YES ") =
      ConflictOutcome.appliedRemoval :=
  ⟨claim_C3_ask_policy.2.2.1 " No " (by decide) (by decide),
   claim_C3_ask_policy.2.2.2 " YES " (Or.inr (by decide))⟩

/-- C4. Conflict computation: membership in the computed conflict set is
exactly the specification's formula (protected, and either equal to a
literal include entry or a case-sensitive glob match of a wildcard entry
expanded against the protected-name index), and the concrete example
yields exactly `{Foo, Barista}`. -/
theorem claim_C4_conflict_computation :
    (∀ includeItems exNames x,
      x ∈ conflictSet includeItems exNames ↔ conflictSpecMem includeItems exNames x) ∧
    conflictSet ["Foo", "Bar*"] ["Foo", "Barista", "Qux"] = ["Foo", "Barista"] :=
  ⟨conflictSet_mem, by decide⟩

/-- C5. The candidate discoverer ignores the protected-name index: the
`ex_names` parameter does not influence the computed candidate set at all,
and on exclude rule `Foo` with project identifier `Foo` already protected
(`ex_names = {Foo}`), `Foo` still appears among the candidates put up for
confirmation — contradicting the function's own documentation. -/
theorem claim_C5_candidates_ignore_protected :
    (∀ excludeItems projectIdentifiers ex1 ex2,
      excludeCandidates excludeItems projectIdentifiers ex1 =
        excludeCandidates excludeItems projectIdentifiers ex2) ∧
    excludeCandidates ["Foo"] ["Foo"] ["Foo"] = ["Foo"] := by
  constructor
  · intro items proj ex1 ex2
    induction items with
    | nil => rfl
    | cons item rest ih => simp only [excludeCandidates, ih]
  · decide

/-- C6 counterexample: a wildcard leaf (`rot*`) does not match a node
named `rotate` — the update run matches nothing and changes nothing,
although the claim says leaf matching admits wildcard patterns. -/
theorem claim_C6_counterexample :
    (updateAstNodeExceptions ["rot*"] 1 none true false
      [.mk "rotate" "function" (some 0) false [] [] [] [] none]).changedNodes = 0 ∧
    (updateAstNodeExceptions ["rot*"] 1 none true false
      [.mk "rotate" "function" (some 0) false [] [] [] [] none]).matchedIdentNames = [] := by
  exact ⟨by decide, by decide⟩

/-- C6 (amended). A rule spec matches at a node iff: its parent path, when
non-empty, is exactly the suffix of the ancestor stack; its leaf equals
the node name **literally** (an empty leaf matches any name; no wildcard
matching is performed on leaves); and a present kind hint or non-empty
kind allow-list admits the node's kind. -/
theorem claim_C6_match_semantics (alw : Option (List String)) (t : Target)
    (stack : List String) (nm kd : String) :
    specMatches alw t stack nm kd = true ↔
      (t.parentPath <:+ stack ∧ (t.leaf = "" ∨ t.leaf = nm) ∧
       (∀ l, alw = some l → l ≠ [] → kd ∈ l) ∧
       (∀ h, t.kindHint = some h → h = kd)) :=
  specMatches_iff alw t stack nm kd

/-- C7 counterexample: with rule `Outer.inner`, a correctly scoped `inner`
(under `Outer`) is matched, and the wrongly scoped `inner` (under `Wrong`)
does **not** put `inner` into the missing set — the missing set is empty,
contradicting the claim that the wrongly scoped node is reported missing. -/
theorem claim_C7_counterexample :
    ("inner" ∈ (updateAstNodeExceptions ["Outer.inner"] 1 none true false
      [.mk "Outer" "class" none false [] [innerZero] [] [] none,
       .mk "Wrong" "class" none false [] [innerZero] [] [] none]).matchedIdentNames) ∧
    (updateAstNodeExceptions ["Outer.inner"] 1 none true false
      [.mk "Outer" "class" none false [] [innerZero] [] [] none,
       .mk "Wrong" "class" none false [] [innerZero] [] [] none]).missingIdentNames = [] ∧
    (updateAstNodeExceptions ["Outer.inner"] 1 none true false
      [.mk "Outer" "class" none false [] [innerZero] [] [] none,
       .mk "Wrong" "class" none false [] [innerZero] [] [] none]).changedNodes = 1 := by
  exact ⟨by decide, by decide, by decide⟩

/-- C7 (amended). The missing set reports exactly the requested non-empty
leaf names for which the whole run matched zero nodes anywhere: a leaf
name is missing iff it is a parsed rule's leaf and no node of that name
was matched by any rule during the pass. -/
theorem claim_C7_missing_semantics (ids : List String) (v : Int)
    (ak : Option (List String)) (lock oz : Bool) (ts : List Ast) (l : String) :
    l ∈ (updateAstNodeExceptions ids v ak lock oz ts).missingIdentNames ↔
      (l ≠ "" ∧ l ∈ (parsedTargets ids).map Target.leaf ∧
        l ∉ (updateAstNodeExceptions ids v ak lock oz ts).matchedIdentNames) := by
  unfold updateAstNodeExceptions
  dsimp only
  rcases hW : walkList ⟨parsedTargets ids, normAllowedKinds ak, v, lock, oz⟩
    ts [] ⟨0, 0, []⟩ with ⟨t2, st2⟩
  dsimp only
  simp [List.mem_filter, List.mem_dedup]
  tauto

/-- C8. Idempotence: running the updater twice with the same rule specs,
target value and flags yields zero changed nodes on the second run, and
the first run's output tree is a fixed point. -/
theorem claim_C8_idempotence (ids : List String) (v : Int)
    (ak : Option (List String)) (lock oz : Bool) (ts : List Ast) :
    (updateAstNodeExceptions ids v ak lock oz
      (updateAstNodeExceptions ids v ak lock oz ts).tree).changedNodes = 0 ∧
    (updateAstNodeExceptions ids v ak lock oz
      (updateAstNodeExceptions ids v ak lock oz ts).tree).tree =
      (updateAstNodeExceptions ids v ak lock oz ts).tree := by
  have h1 := updateAst_run ids v ak lock oz ts
  have h2 := updateAst_run ids v ak lock oz (updateAstNodeExceptions ids v ak lock oz ts).tree
  constructor
  · rw [h2.2.1, h1.1]
    exact ((walk_idem (runParams ids v ak lock oz)).2 ts []).2
  · rw [h2.1, h1.1]
    exact ((walk_idem (runParams ids v ak lock oz)).2 ts []).1

/-- C9. The run writes the document back iff at least one node's
protection value actually flipped: `writesBack` is true exactly when the
output protection sequence differs from the input one (the sequence's
length is always preserved, so the comparison is position-wise); in
particular a pass whose matches were all already at the target value
leaves the stored document untouched. -/
theorem claim_C9_write_iff_changed (ids : List String) (v : Int)
    (ak : Option (List String)) (lock oz : Bool) (ts : List Ast) :
    ((updateAstNodeExceptions ids v ak lock oz ts).writesBack = true ↔
      excsList (updateAstNodeExceptions ids v ak lock oz ts).tree ≠ excsList ts) ∧
    (excsList (updateAstNodeExceptions ids v ak lock oz ts).tree).length =
      (excsList ts).length := by
  have h1 := updateAst_run ids v ak lock oz ts
  constructor
  · rw [h1.2.2, h1.1]
    rw [decide_eq_true_iff]
    have hiff := (walk_delta_iff (runParams ids v ak lock oz)).2 ts []
    constructor
    · intro hlt heq
      rw [← hiff] at heq
      omega
    · intro hne
      rcases Nat.eq_zero_or_pos (deltaL (runParams ids v ak lock oz) ts []) with h0 | h0
      · exact absurd (hiff.1 h0) hne
      · exact h0
  · rw [h1.1]
    exact (walk_len (runParams ids v ak lock oz)).2 ts []

/-- C10 counterexample: the spec string `function:` (a kind prefix with no
name) is **not** dropped — it parses with an empty leaf, matches every
node of kind `function`, and flips the node's protection. -/
theorem claim_C10_counterexample :
    (updateAstNodeExceptions ["function:"] 1 none true false
      [.mk "doWork" "function" (some 0) false [] [] [] [] none]).changedNodes = 1 ∧
    (updateAstNodeExceptions ["function:"] 1 none true false
      [.mk "doWork" "function" (some 0) false [] [] [] [] none]).tree =
      [.mk "doWork" "function" (some 1) true [] [] [] [] none] ∧
    parseSpec "function:" = ⟨some "function", [], ""⟩ := by
  exact ⟨by decide, by rfl, by decide⟩

/-- C10 (amended). Spec strings that are empty or whitespace-only are
dropped silently: they produce no parsed targets, and a run whose spec
list consists only of such strings matches nothing, changes no protection
value, and leaves the tree identically unchanged. (A kind-prefix-only
spec such as `function:` is *not* dropped: it parses to an empty leaf and
matches every node of that kind, per the counterexample.) -/
theorem claim_C10_blank_specs_dropped (ids : List String)
    (h : ∀ x ∈ ids, pyStrip x = "") (v : Int) (ak : Option (List String))
    (lock oz : Bool) (ts : List Ast) :
    parsedTargets ids = [] ∧
    (updateAstNodeExceptions ids v ak lock oz ts).tree = ts ∧
    (updateAstNodeExceptions ids v ak lock oz ts).changedNodes = 0 := by
  have hpt : parsedTargets ids = [] := by
    unfold parsedTargets
    have : ids.filter (fun x => pyStrip x ≠ "") = [] := by
      rw [List.filter_eq_nil_iff]
      intro x hx
      simp [h x hx]
    rw [this]
    rfl
  have hT : (runParams ids v ak lock oz).targets = [] := hpt
  have hrun := updateAst_run ids v ak lock oz ts
  refine ⟨hpt, ?_, ?_⟩
  · rw [hrun.1]
    exact ((walk_no_targets (runParams ids v ak lock oz) hT).2 ts []).1
  · rw [hrun.2.1]
    exact ((walk_no_targets (runParams ids v ak lock oz) hT).2 ts []).2

/-- Witness for C10 (amended) at a concrete all-blank spec list. -/
theorem claim_C10_witness :
    parsedTargets ["", "   "] = [] ∧
    (updateAstNodeExceptions ["", "   "] 1 none true false [innerZero]).tree =
      [innerZero] ∧
    (updateAstNodeExceptions ["", "   "] 1 none true false [innerZero]).changedNodes = 0 :=
  claim_C10_blank_specs_dropped ["", "   "] (by decide) 1 none true false [innerZero]


/-- Witness for C4 at a concrete input. -/
theorem claim_C4_witness :
    "Barista" ∈ conflictSet ["Foo", "Bar*"] ["Foo", "Barista", "Qux"] :=
  (claim_C4_conflict_computation.1 ["Foo", "Bar*"] ["Foo", "Barista", "Qux"]
    "Barista").mpr
    ⟨by decide, "Bar*", by decide, by decide, Or.inr ⟨by decide, by decide⟩⟩

/-- Witness for C6 (amended) at a concrete input: `Outer.inner` matches a
node named `inner` under ancestor stack `[Outer]`. -/
theorem claim_C6_witness :
    specMatches none ⟨none, ["Outer"], "inner"⟩ ["Outer"] "inner" "function" = true :=
  (claim_C6_match_semantics none ⟨none, ["Outer"], "inner"⟩ ["Outer"] "inner"
    "function").mpr
    ⟨by decide, Or.inr rfl, fun l hl => by simp at hl, fun h hh => by simp at hh⟩

/-- Witness for C7 (amended) at a concrete input: a leaf that matches no
node anywhere is reported missing. -/
theorem claim_C7_witness :
    "ghost" ∈ (updateAstNodeExceptions ["ghost"] 1 none true false
      []).missingIdentNames :=
  (claim_C7_missing_semantics ["ghost"] 1 none true false [] "ghost").mpr
    ⟨by decide, by decide, by decide⟩

/-- Witness for C8 at a concrete input. -/
theorem claim_C8_witness :
    (updateAstNodeExceptions ["inner"] 1 none true false
      (updateAstNodeExceptions ["inner"] 1 none true false [innerZero]).tree).changedNodes = 0 :=
  (claim_C8_idempotence ["inner"] 1 none true false [innerZero]).1

/-- Witness for C9 at a concrete input: the protection sequence keeps its
length. -/
theorem claim_C9_witness :
    (excsList (updateAstNodeExceptions ["inner"] 1 none true false
      [innerZero]).tree).length = (excsList [innerZero]).length :=
  (claim_C9_write_iff_changed ["inner"] 1 none true false [innerZero]).2

end Swingft

